import Mathlib

/-!
Shallow embedding of the gocheche routing program (src/gocheche) and proofs
about its specification claims.

Conventions of the embedding:
* Python dictionaries are embedded as association lists in assignment order,
  where a later entry for the same key shadows an earlier one (`pyGet`);
  `d1.update(d2)` is list concatenation `d1 ++ d2`.
* Python floats carry only exact travel durations and coordinates here, so
  they are embedded as rationals `ℚ` (no floating-point rounding is exercised
  by the functions under study).
* External collaborators (geocoder, openrouteservice distance provider) are
  parameters of the embedded functions: the provider response matrices are
  passed in as functions from indices to durations.
* A Python function that can `raise` is embedded with an explicit result type
  distinguishing a normal return from a raised error; `return ValueError(...)`
  (returning the error object as a value, which is what src does in one spot)
  is kept distinct from `raise ValueError(...)`.
-/

/-- A Python dict as an association list in assignment order; a later binding
of a key shadows an earlier one. -/
abbrev PyDict (α β : Type) := List (α × β)

/-- Dictionary lookup with Python semantics: the most recent binding wins. -/
def pyGet {α β : Type} [DecidableEq α] (d : PyDict α β) (k : α) : Option β :=
  match d with
  | [] => none
  | (k2, v) :: rest =>
    match pyGet rest k with
    | some v2 => some v2
    | none => if k2 = k then some v else none

theorem pyGet_append {α β : Type} [DecidableEq α] (d1 d2 : PyDict α β) (k : α) :
    pyGet (d1 ++ d2) k =
      match pyGet d2 k with
      | some v => some v
      | none => pyGet d1 k := by
  induction d1 with
  | nil =>
    simp only [List.nil_append]
    cases pyGet d2 k <;> rfl
  | cons hd tl ih =>
    obtain ⟨k2, v⟩ := hd
    have hstep : pyGet (((k2, v) :: tl) ++ d2) k =
        match pyGet (tl ++ d2) k with
        | some v2 => some v2
        | none => if k2 = k then some v else none := rfl
    have hrhs : pyGet ((k2, v) :: tl) k =
        match pyGet tl k with
        | some v2 => some v2
        | none => if k2 = k then some v else none := rfl
    rw [hstep, ih, hrhs]
    cases pyGet d2 k <;> cases pyGet tl k <;> rfl

theorem pyGet_eq_none {α β : Type} [DecidableEq α] (d : PyDict α β) (k : α) :
    pyGet d k = none ↔ k ∉ d.map Prod.fst := by
  induction d with
  | nil => simp [pyGet]
  | cons hd tl ih =>
    obtain ⟨k2, v⟩ := hd
    simp only [pyGet, List.map_cons, List.mem_cons]
    cases h : pyGet tl k with
    | some v2 =>
      simp only []
      constructor
      · intro hc; exact absurd hc (by simp)
      · intro hc
        exact absurd (ih.mpr (fun hm => hc (Or.inr hm))) (by simp [h])
    | none =>
      by_cases hk : k2 = k
      · simp [hk]
      · simp only [if_neg hk]
        rw [ih] at h
        simp [h, Ne.symm hk]

/-- The reserved id of the depot stop (src/gocheche/utils.py, DEPOT_CUST_ID). -/
def DEPOT_CUST_ID : String := "000000"

/-- A customer record (src/gocheche/core.py, class Customer). -/
structure Customer where
  cust_id : String
  name : String
  address : String
  lat : ℚ
  lon : ℚ
  visit : Bool
  delivery_day : Option String
  delivery_order : Int
deriving DecidableEq, Repr

/-- Build a customer the way the loader does (visit flag set, no delivery
hints), mirroring `Customer(cust_id, name, address, lat, lon, True)`. -/
def mkCustomer (cust_id name address : String) (lat lon : ℚ) (visit : Bool) : Customer :=
  ⟨cust_id, name, address, lat, lon, visit, none, -1⟩

/-- Embeds Customer.get_coords (src/gocheche/core.py lines 52-61): returns
(lat, lon) when lat_first is true, else (lon, lat); the Python default for
lat_first is False. -/
def Customer.get_coords (c : Customer) (lat_first : Bool) : ℚ × ℚ :=
  if lat_first then (c.lat, c.lon) else (c.lon, c.lat)

/-- The arguments routing.AddDimension receives in get_routing_solution
(src/gocheche/router.py lines 113-120). -/
structure AddDimensionArgs where
  slack_max : ℕ
  capacity : ℕ
  fix_start_cumul_to_zero : Bool
  dimension_name : String
deriving DecidableEq, Repr

/-- The duration dimension registered by get_routing_solution: slack 0,
vehicle maximum travel time 21600 seconds, start cumul fixed to zero. -/
def duration_dimension_args : AddDimensionArgs :=
  { slack_max := 0
    capacity := 21600
    fix_start_cumul_to_zero := true
    dimension_name := "duration" }

/-- The global span cost coefficient set on the duration dimension
(src/gocheche/router.py line 122). -/
def global_span_cost_coefficient : ℕ := 100

/-- Cumulative duration of a vehicle path through matrix `m`: the sum of the
arc costs of consecutive nodes, as accumulated by the routing dimension and
by get_routes. -/
def route_cumulative_duration (m : ℕ → ℕ → ℚ) (path : List ℕ) : ℚ :=
  (path.zip path.tail).foldl (fun acc p => acc + m p.1 p.2) 0

/-- The per-route feasibility predicate the duration dimension imposes: with
slack fixed at 0, the cumul at the route end is the plain sum of arc costs,
and it must stay within the registered vehicle capacity. -/
def route_within_ceiling (m : ℕ → ℕ → ℚ) (path : List ℕ) : Prop :=
  route_cumulative_duration m path ≤ (duration_dimension_args.capacity : ℚ)

/-- C10: with lat_first left at its default (False), get_coords returns
(longitude, latitude); the (latitude, longitude) order is produced exactly
when lat_first is True. -/
theorem C10_get_coords_order (c : Customer) :
    c.get_coords false = (c.lon, c.lat) ∧ c.get_coords true = (c.lat, c.lon) := by
  constructor <;> rfl

/-- C1 counterexample: the per-route duration ceiling the engine registers is
21600, not the 28800 the claim states. -/
theorem C1_counterexample_ceiling_not_28800 :
    duration_dimension_args.capacity ≠ 28800 := by
  decide

/-- C1 (amended): the engine registers a fixed per-route cumulative duration
ceiling of 21600 time units with zero slack between consecutive stops, and a
path is accepted by that dimension exactly when its cumulative duration is at
most 21600. -/
theorem C1_duration_dimension (m : ℕ → ℕ → ℚ) (path : List ℕ) :
    duration_dimension_args.slack_max = 0 ∧
    duration_dimension_args.capacity = 21600 ∧
    (route_within_ceiling m path ↔ route_cumulative_duration m path ≤ 21600) := by
  refine ⟨rfl, rfl, ?_⟩
  unfold route_within_ceiling
  norm_num [duration_dimension_args]

/-- Embeds get_dists_to_from_new_cust (src/gocheche/utils.py lines 331-392).
The openrouteservice client is external, so the two batched responses are
parameters: `resp_from i` is the provider duration from the new customer to
the stop at index `i` of the request locations (response[0][i] of the
sources-query), and `resp_to i` is the duration from the stop at index `i`
to the new customer (response[i][0] of the destinations-query). Locations
are the known customers in order followed by the new customer, exactly as
the source builds `cust_coords_w_id`; the first comprehension runs over
range(n) (so it includes the self pair), the second over range(n-1). -/
def get_dists_to_from_new_cust (customer : Customer) (known_customers : List Customer)
    (resp_from resp_to : ℕ → ℚ) : PyDict (String × String) ℚ :=
  if known_customers.isEmpty then
    [((customer.cust_id, customer.cust_id), 0)]
  else
    let ids := known_customers.map (fun c => c.cust_id) ++ [customer.cust_id]
    let n := ids.length
    let new_cust_idx := n - 1
    ((List.range n).map (fun i => ((customer.cust_id, ids.getD i ""), resp_from i)))
      ++ ((List.range new_cust_idx).map (fun i => ((ids.getD i "", customer.cust_id), resp_to i)))

/-- Membership in a list of strings, phrased through positional access the way
the dict comprehensions index `cust_coords_w_id`. -/
theorem mem_iff_exists_getD (l : List String) (x : String) :
    x ∈ l ↔ ∃ i, i < l.length ∧ l.getD i "" = x := by
  constructor
  · intro hx
    obtain ⟨i, hi, hx⟩ := List.mem_iff_getElem.mp hx
    exact ⟨i, hi, by rw [List.getD_eq_getElem l "" hi, hx]⟩
  · rintro ⟨i, hi, hx⟩
    rw [List.getD_eq_getElem l "" hi] at hx
    exact hx ▸ List.getElem_mem hi

theorem getD_append_left_str (l1 l2 : List String) (i : ℕ) (h : i < l1.length) :
    (l1 ++ l2).getD i "" = l1.getD i "" := by
  have h2 : i < (l1 ++ l2).length := by simp; omega
  rw [List.getD_eq_getElem _ "" h2, List.getD_eq_getElem _ "" h]
  exact List.getElem_append_left h

theorem getD_append_last_str (l : List String) (x : String) :
    (l ++ [x]).getD l.length "" = x := by
  have h2 : l.length < (l ++ [x]).length := by simp
  rw [List.getD_eq_getElem _ "" h2]
  exact List.getElem_concat_length l x _ rfl h2

/-- C4 counterexample: merging new stop 000002 into a store with the two known
stops 000000 and 000001 stores a duration under the self pair (000002, 000002)
as well, so the merge result is not only the forward and backward pairs with
the known stops; 000002 is not a known stop. -/
theorem C4_counterexample_self_pair :
    pyGet
      (get_dists_to_from_new_cust
        (mkCustomer "000002" "C" "c street" 0 0 true)
        [mkCustomer "000000" "Depot" "d street" 0 0 false,
         mkCustomer "000001" "A" "a street" 0 0 false]
        (fun i => (i : ℚ)) (fun i => (10 + i : ℚ)))
      ("000002", "000002") = some 2 ∧
    "000002" ∉
      ([mkCustomer "000000" "Depot" "d street" 0 0 false,
        mkCustomer "000001" "A" "a street" 0 0 false].map (fun c => c.cust_id)) := by
  constructor
  · rfl
  · decide

/-- C4 (amended): merging a new stop C into a store with a non-empty set of
known stops produces exactly the forward pairs (C, k) and backward pairs
(k, C) for each known stop k plus the self pair (C, C), and nothing else;
and updating a store with the merge result leaves every pair not involving
C's id — in particular every pair among the pre-existing stops — unchanged. -/
theorem C4_merge_pairs (customer : Customer) (known_customers : List Customer)
    (resp_from resp_to : ℕ → ℚ) (hk : known_customers ≠ []) (a b : String) :
    (pyGet (get_dists_to_from_new_cust customer known_customers resp_from resp_to) (a, b)
        ≠ none ↔
      ((a = customer.cust_id ∧
          (b ∈ known_customers.map (fun c => c.cust_id) ∨ b = customer.cust_id)) ∨
        (a ∈ known_customers.map (fun c => c.cust_id) ∧ b = customer.cust_id))) ∧
    (∀ d : PyDict (String × String) ℚ,
      a ≠ customer.cust_id → b ≠ customer.cust_id →
      pyGet (d ++ get_dists_to_from_new_cust customer known_customers resp_from resp_to)
          (a, b)
        = pyGet d (a, b)) := by
  have hne : known_customers.isEmpty = false := by
    cases known_customers with
    | nil => exact absurd rfl hk
    | cons h t => rfl
  have hdom : pyGet (get_dists_to_from_new_cust customer known_customers resp_from resp_to)
      (a, b) ≠ none ↔
      ((a = customer.cust_id ∧
          (b ∈ known_customers.map (fun c => c.cust_id) ∨ b = customer.cust_id)) ∨
        (a ∈ known_customers.map (fun c => c.cust_id) ∧ b = customer.cust_id)) := by
    rw [Ne, pyGet_eq_none, not_not]
    simp only [get_dists_to_from_new_cust, hne, Bool.false_eq_true, if_false,
      List.map_append, List.map_map, List.mem_append, List.mem_map, List.mem_range,
      Function.comp, Prod.mk.injEq]
    have hlast := getD_append_last_str (known_customers.map (fun c => c.cust_id))
      customer.cust_id
    rw [List.length_map] at hlast
    constructor
    · rintro (⟨i, hi, hca, hgb⟩ | ⟨i, hi, hga, hcb⟩)
      · rw [List.length_append, List.length_map, List.length_singleton] at hi
        rcases Nat.lt_succ_iff_lt_or_eq.mp hi with hlt | heq
        · left
          refine ⟨hca.symm, Or.inl (List.mem_map.mp ?_)⟩
          rw [← hgb, getD_append_left_str (known_customers.map (fun c => c.cust_id))
            [customer.cust_id] i (by simpa using hlt)]
          exact (mem_iff_exists_getD _ _).mpr ⟨i, by simpa using hlt, rfl⟩
        · left
          refine ⟨hca.symm, Or.inr ?_⟩
          rw [← hgb, heq, hlast]
      · right
        rw [List.length_append, List.length_singleton, Nat.add_sub_cancel,
          List.length_map] at hi
        refine ⟨List.mem_map.mp ?_, hcb.symm⟩
        rw [← hga, getD_append_left_str (known_customers.map (fun c => c.cust_id))
          [customer.cust_id] i (by simpa using hi)]
        exact (mem_iff_exists_getD _ _).mpr ⟨i, by simpa using hi, rfl⟩
    · rintro (⟨rfl, hb | rfl⟩ | ⟨ha, rfl⟩)
      · obtain ⟨i, hi, hgi⟩ := (mem_iff_exists_getD _ _).mp (List.mem_map.mpr hb)
        rw [List.length_map] at hi
        refine Or.inl ⟨i, ?_, rfl, ?_⟩
        · simp [List.length_append]; omega
        · rw [getD_append_left_str (known_customers.map (fun c => c.cust_id))
            [customer.cust_id] i (by simpa using hi)]
          exact hgi
      · refine Or.inl ⟨known_customers.length, ?_, rfl, hlast⟩
        simp [List.length_append]
      · obtain ⟨i, hi, hgi⟩ := (mem_iff_exists_getD _ _).mp (List.mem_map.mpr ha)
        rw [List.length_map] at hi
        refine Or.inr ⟨i, ?_, ?_, rfl⟩
        · simp [List.length_append]; omega
        · rw [getD_append_left_str (known_customers.map (fun c => c.cust_id))
            [customer.cust_id] i (by simpa using hi)]
          exact hgi
  refine ⟨hdom, ?_⟩
  intro d ha hb
  rw [pyGet_append]
  have hnone : pyGet (get_dists_to_from_new_cust customer known_customers resp_from resp_to)
      (a, b) = none := by
    by_contra hcon
    rcases hdom.mp hcon with ⟨ha2, _⟩ | ⟨_, hb2⟩
    · exact ha ha2
    · exact hb hb2
  rw [hnone]

/-- C4 witness: the amended merge theorem applied to a concrete store of two
known stops and a concrete new stop, checking the self pair is stored, a
forward pair is stored, and a pre-existing pair is left unchanged. -/
theorem C4_merge_pairs_witness :
    ([mkCustomer "000000" "Depot" "d street" 0 0 false] ≠ ([] : List Customer)) ∧
    (pyGet (get_dists_to_from_new_cust (mkCustomer "000001" "B" "b street" 0 0 true)
        [mkCustomer "000000" "Depot" "d street" 0 0 false]
        (fun i => (i : ℚ)) (fun i => (7 + i : ℚ))) ("000000", "000000") ≠ none ↔
      (("000000" : String) = "000001" ∧
          (("000000" : String) ∈
              ([mkCustomer "000000" "Depot" "d street" 0 0 false].map (fun c => c.cust_id)) ∨
            ("000000" : String) = "000001")) ∨
        (("000000" : String) ∈
            ([mkCustomer "000000" "Depot" "d street" 0 0 false].map (fun c => c.cust_id)) ∧
          ("000000" : String) = "000001")) := by
  refine ⟨by decide, ?_⟩
  exact (C4_merge_pairs (mkCustomer "000001" "B" "b street" 0 0 true)
    [mkCustomer "000000" "Depot" "d street" 0 0 false]
    (fun i => (i : ℚ)) (fun i => (7 + i : ℚ)) (by decide) "000000" "000000").1

/-- Embeds get_routes (src/gocheche/router.py lines 32-76). The solver
objects (manager, routing, solution) are abstracted by `vehicle_path v`, the
sequence of nodes vehicle v traverses from its start to its end — the source
walks exactly that chain via routing.Start / NextVar / IsEnd, appending the
customer of every visited node including the final depot, and summing the arc
costs of consecutive nodes. Python dict indexing `customers[...]` is embedded
as an optional lookup. -/
def get_routes (num_vehicles : ℕ) (vehicle_path : ℕ → List ℕ)
    (visits : List String) (customers : String → Option Customer)
    (m : ℕ → ℕ → ℚ) : List (List (Option Customer) × ℚ) :=
  (List.range num_vehicles).map (fun v =>
    ((vehicle_path v).map (fun node => customers (visits.getD node "")),
      route_cumulative_duration m (vehicle_path v)))

/-- The `max_route_duration` variable of get_routes: starts at 0 and is folded
with `max(route_duration, max_route_duration)` over the routes; the source
only logs this value (router.py line 74), it is not part of the return. -/
def max_route_duration (routes : List (List (Option Customer) × ℚ)) : ℚ :=
  routes.foldl (fun acc r => max r.2 acc) 0

/-- Trace of one call of get_routing_solution (src/gocheche/router.py lines
79-145): whether the solver handed back an assignment, what was extracted and
written, whether the no-solution warning was logged, and the Python return
value of the function. The function body has no return statement on either
branch, so `ret` records the implicit Python None as `none`. -/
structure RoutingRunTrace where
  extracted : Option (List (List (Option Customer) × ℚ))
  logged_max_duration : Option ℚ
  warned_no_solution : Bool
  ret : Option (List (List (Option Customer) × ℚ))
deriving DecidableEq

/-- Embeds the result handling of get_routing_solution: `solver_paths` is the
outcome of routing.SolveWithParameters (none when no solution was found). On
success the routes are extracted (and written to file); on failure only the
warning "NO SOLUTION COULD BE FOUND" is logged. Both branches fall off the
end of the function, returning Python None. -/
def get_routing_solution (solver_paths : Option (ℕ → List ℕ)) (num_vehicles : ℕ)
    (visits : List String) (customers : String → Option Customer)
    (m : ℕ → ℕ → ℚ) : RoutingRunTrace :=
  match solver_paths with
  | some paths =>
    { extracted := some (get_routes num_vehicles paths visits customers m)
      logged_max_duration :=
        some (max_route_duration (get_routes num_vehicles paths visits customers m))
      warned_no_solution := false
      ret := none }
  | none =>
    { extracted := none
      logged_max_duration := none
      warned_no_solution := true
      ret := none }

/-- C3 counterexample: at a concrete one-vehicle instance, the return value of
get_routing_solution when the solver reports no assignment is identical to its
return value when the solver does hand back an assignment — both are Python
None — so the infeasible outcome is not a result value distinguishable from a
feasible Solution. -/
theorem C3_counterexample_return_indistinguishable :
    (get_routing_solution none 1 ["000000"] (fun _ => none) (fun _ _ => 0)).ret
      = (get_routing_solution (some (fun _ => [0, 0])) 1 ["000000"]
          (fun _ => none) (fun _ _ => 0)).ret ∧
    (get_routing_solution none 1 ["000000"] (fun _ => none) (fun _ _ => 0)).warned_no_solution
      = true := by
  exact ⟨rfl, rfl⟩

/-- C3 (amended): when no assignment respects the constraints, the engine does
not throw: it logs the warning "NO SOLUTION COULD BE FOUND" and extracts
nothing, but the function's return value is Python None on the infeasible
branch exactly as on the feasible branch, so infeasibility is signalled only
by the warning and the absence of extracted output, not by a distinguishable
result value. -/
theorem C3_infeasible_logged_not_returned (num_vehicles : ℕ) (visits : List String)
    (customers : String → Option Customer) (m : ℕ → ℕ → ℚ) (paths : ℕ → List ℕ) :
    (get_routing_solution none num_vehicles visits customers m).warned_no_solution = true ∧
    (get_routing_solution none num_vehicles visits customers m).extracted = none ∧
    (get_routing_solution none num_vehicles visits customers m).ret = none ∧
    (get_routing_solution (some paths) num_vehicles visits customers m).warned_no_solution
      = false ∧
    (get_routing_solution (some paths) num_vehicles visits customers m).ret = none := by
  exact ⟨rfl, rfl, rfl, rfl, rfl⟩

theorem foldl_max_spec (l : List ℚ) (init : ℚ) :
    (l.foldl (fun acc x => max x acc) init = init ∨
      l.foldl (fun acc x => max x acc) init ∈ l) ∧
    init ≤ l.foldl (fun acc x => max x acc) init ∧
    ∀ x ∈ l, x ≤ l.foldl (fun acc x => max x acc) init := by
  induction l generalizing init with
  | nil => exact ⟨Or.inl rfl, le_refl _, by simp⟩
  | cons hd tl ih =>
    obtain ⟨hmem, hinit, hbound⟩ := ih (max hd init)
    refine ⟨?_, ?_, ?_⟩
    · rcases hmem with heq | hmem2
      · have hcons : (hd :: tl).foldl (fun acc x => max x acc) init = max hd init := by
          rw [List.foldl_cons]; exact heq
        rcases max_choice hd init with hc | hc
        · exact Or.inr (by rw [hcons, hc]; exact List.mem_cons_self hd tl)
        · exact Or.inl (by rw [hcons, hc])
      · exact Or.inr (List.mem_cons_of_mem _ hmem2)
    · exact le_trans (le_max_right hd init) hinit
    · intro x hx
      rcases List.mem_cons.mp hx with rfl | hx2
      · exact le_trans (le_max_left x init) hinit
      · exact hbound x hx2

theorem max_route_duration_eq_foldl_map (routes : List (List (Option Customer) × ℚ)) :
    max_route_duration routes
      = (routes.map (fun r => r.2)).foldl (fun acc x => max x acc) 0 := by
  unfold max_route_duration
  rw [List.foldl_map]

/-- C6: get_routes returns exactly one (route, duration) entry per vehicle; a
vehicle whose path visits no non-depot node (its chain is just start-depot to
end-depot) is reported as the depot-only route with zero duration (given the
zero depot self-distance the store seeds); and the maximum route duration
across vehicles — the value the source computes and logs — is the duration of
one of the returned entries and bounds all of them. -/
theorem C6_get_routes_per_vehicle (num_vehicles : ℕ) (vehicle_path : ℕ → List ℕ)
    (visits : List String) (customers : String → Option Customer) (m : ℕ → ℕ → ℚ)
    (hnv : 1 ≤ num_vehicles) (hdiag : m 0 0 = 0)
    (hnn : ∀ v, v < num_vehicles → 0 ≤ route_cumulative_duration m (vehicle_path v)) :
    (get_routes num_vehicles vehicle_path visits customers m).length = num_vehicles ∧
    (∀ v, v < num_vehicles → vehicle_path v = [0, 0] →
      (get_routes num_vehicles vehicle_path visits customers m).getD v ([], 0)
        = ([customers (visits.getD 0 ""), customers (visits.getD 0 "")], 0)) ∧
    (∃ e ∈ get_routes num_vehicles vehicle_path visits customers m,
      e.2 = max_route_duration (get_routes num_vehicles vehicle_path visits customers m) ∧
      ∀ e2 ∈ get_routes num_vehicles vehicle_path visits customers m, e2.2 ≤ e.2) := by
  have hlen : (get_routes num_vehicles vehicle_path visits customers m).length
      = num_vehicles := by
    simp [get_routes]
  refine ⟨hlen, ?_, ?_⟩
  · intro v hv hpath
    have hv2 : v < (get_routes num_vehicles vehicle_path visits customers m).length := by
      rw [hlen]; exact hv
    rw [List.getD_eq_getElem _ _ hv2]
    unfold get_routes
    rw [List.getElem_map, List.getElem_range, hpath]
    simp [route_cumulative_duration, hdiag]
  · obtain ⟨hmem, _, hbound⟩ :=
      foldl_max_spec ((get_routes num_vehicles vehicle_path visits customers m).map
        (fun r => r.2)) 0
    rw [← max_route_duration_eq_foldl_map] at hmem hbound
    rcases hmem with hzero | hmem2
    · -- the fold stayed at its initial value 0: every duration is ≤ 0 and ≥ 0,
      -- so the first entry realizes the maximum
      have hne : get_routes num_vehicles vehicle_path visits customers m ≠ [] := by
        intro hcon
        rw [hcon] at hlen
        simp at hlen
        omega
      obtain ⟨e, es, hcons⟩ := List.exists_cons_of_ne_nil hne
      have hemem : e ∈ get_routes num_vehicles vehicle_path visits customers m := by
        rw [hcons]; exact List.mem_cons_self e es
      have he_le : e.2 ≤ 0 := by
        have := hbound e.2 (List.mem_map.mpr ⟨e, hemem, rfl⟩)
        rw [hzero] at this
        exact this
      have he_ge : 0 ≤ e.2 := by
        have hex : ∃ v, v < num_vehicles ∧
            e = ((vehicle_path v).map (fun node => customers (visits.getD node "")),
              route_cumulative_duration m (vehicle_path v)) := by
          have := hemem
          unfold get_routes at this
          obtain ⟨v, hv, hveq⟩ := List.mem_map.mp this
          exact ⟨v, by simpa using List.mem_range.mp hv, hveq.symm⟩
        obtain ⟨v, hv, rfl⟩ := hex
        exact hnn v hv
      refine ⟨e, hemem, ?_, ?_⟩
      · rw [hzero]; exact le_antisymm he_le he_ge
      · intro e2 he2
        have hb2 := hbound e2.2 (List.mem_map.mpr ⟨e2, he2, rfl⟩)
        rw [hzero] at hb2
        have he0 : e.2 = 0 := le_antisymm he_le he_ge
        rw [he0]
        exact hb2
    · obtain ⟨e, hemem, heq⟩ := List.mem_map.mp hmem2
      refine ⟨e, hemem, heq, ?_⟩
      intro e2 he2
      rw [heq]
      exact hbound e2.2 (List.mem_map.mpr ⟨e2, he2, rfl⟩)

/-- C6 witness: the extractor theorem applied to a concrete solved run with two
vehicles, one of which is assigned no non-depot node. -/
theorem C6_get_routes_witness :
    (1 ≤ 2 ∧ (fun (i j : ℕ) => if i = 0 ∧ j = 1 then (3 : ℚ) else if i = 1 ∧ j = 0 then 4 else 0) 0 0 = 0) ∧
    ((get_routes 2 (fun v => if v = 0 then [0, 1, 0] else [0, 0]) ["000000", "000001"]
        (fun s => if s = "000000" then some (mkCustomer "000000" "Depot" "d" 0 0 false) else none)
        (fun i j => if i = 0 ∧ j = 1 then (3 : ℚ) else if i = 1 ∧ j = 0 then 4 else 0)).length = 2 ∧
      (∀ v, v < 2 → (fun v => if v = 0 then [0, 1, 0] else [0, 0]) v = [0, 0] →
        (get_routes 2 (fun v => if v = 0 then [0, 1, 0] else [0, 0]) ["000000", "000001"]
            (fun s => if s = "000000" then some (mkCustomer "000000" "Depot" "d" 0 0 false) else none)
            (fun i j => if i = 0 ∧ j = 1 then (3 : ℚ) else if i = 1 ∧ j = 0 then 4 else 0)).getD v ([], 0)
          = ([(fun s => if s = "000000" then some (mkCustomer "000000" "Depot" "d" 0 0 false) else none)
                (["000000", "000001"].getD 0 ""),
              (fun s => if s = "000000" then some (mkCustomer "000000" "Depot" "d" 0 0 false) else none)
                (["000000", "000001"].getD 0 "")], 0)) ∧
      (∃ e ∈ get_routes 2 (fun v => if v = 0 then [0, 1, 0] else [0, 0]) ["000000", "000001"]
          (fun s => if s = "000000" then some (mkCustomer "000000" "Depot" "d" 0 0 false) else none)
          (fun i j => if i = 0 ∧ j = 1 then (3 : ℚ) else if i = 1 ∧ j = 0 then 4 else 0),
        e.2 = max_route_duration (get_routes 2 (fun v => if v = 0 then [0, 1, 0] else [0, 0])
            ["000000", "000001"]
            (fun s => if s = "000000" then some (mkCustomer "000000" "Depot" "d" 0 0 false) else none)
            (fun i j => if i = 0 ∧ j = 1 then (3 : ℚ) else if i = 1 ∧ j = 0 then 4 else 0)) ∧
        ∀ e2 ∈ get_routes 2 (fun v => if v = 0 then [0, 1, 0] else [0, 0]) ["000000", "000001"]
            (fun s => if s = "000000" then some (mkCustomer "000000" "Depot" "d" 0 0 false) else none)
            (fun i j => if i = 0 ∧ j = 1 then (3 : ℚ) else if i = 1 ∧ j = 0 then 4 else 0),
          e2.2 ≤ e.2)) := by
  refine ⟨⟨by norm_num, by norm_num⟩, ?_⟩
  exact C6_get_routes_per_vehicle 2 (fun v => if v = 0 then [0, 1, 0] else [0, 0])
    ["000000", "000001"]
    (fun s => if s = "000000" then some (mkCustomer "000000" "Depot" "d" 0 0 false) else none)
    (fun i j => if i = 0 ∧ j = 1 then (3 : ℚ) else if i = 1 ∧ j = 0 then 4 else 0)
    (by norm_num) (by norm_num)
    (by
      intro v hv
      interval_cases v <;> norm_num [route_cumulative_duration])

/-- Python string comparison: lexicographic on code points, as used by
`sorted(visits)` in load_customers. -/
def charsLe : List Char → List Char → Bool
  | [], _ => true
  | _ :: _, [] => false
  | a :: as2, b :: bs => if a < b then true else if b < a then false else charsLe as2 bs

/-- Python `<=` on strings. -/
def pyStrLe (a b : String) : Bool := charsLe a.data b.data

theorem charsLe_cons (a b : Char) (as2 bs : List Char) :
    charsLe (a :: as2) (b :: bs)
      = if a < b then true else if b < a then false else charsLe as2 bs := rfl

theorem charsLe_total (a b : List Char) : charsLe a b = true ∨ charsLe b a = true := by
  induction a generalizing b with
  | nil => exact Or.inl rfl
  | cons x xs ih =>
    cases b with
    | nil => exact Or.inr rfl
    | cons y ys =>
      rcases lt_trichotomy x y with hlt | heq | hgt
      · left
        rw [charsLe_cons, if_pos hlt]
      · subst heq
        rcases ih ys with h | h
        · left
          rw [charsLe_cons, if_neg (lt_irrefl x), if_neg (lt_irrefl x)]
          exact h
        · right
          rw [charsLe_cons, if_neg (lt_irrefl x), if_neg (lt_irrefl x)]
          exact h
      · right
        rw [charsLe_cons, if_pos hgt]

theorem charsLe_trans (a b c : List Char) (hab : charsLe a b = true)
    (hbc : charsLe b c = true) : charsLe a c = true := by
  induction a generalizing b c with
  | nil => rfl
  | cons x xs ih =>
    cases b with
    | nil => exact absurd hab (by simp [charsLe])
    | cons y ys =>
      cases c with
      | nil => exact absurd hbc (by simp [charsLe])
      | cons z zs =>
        rw [charsLe_cons] at hab hbc ⊢
        by_cases hxy : x < y
        · by_cases hyz : y < z
          · rw [if_pos (lt_trans hxy hyz)]
          · by_cases hzy : z < y
            · exact absurd hbc (by rw [if_neg hyz, if_pos hzy]; simp)
            · have hyzeq : y = z := le_antisymm (not_lt.mp hzy) (not_lt.mp hyz)
              rw [if_pos (hyzeq ▸ hxy)]
        · by_cases hyx : y < x
          · exact absurd hab (by rw [if_neg hxy, if_pos hyx]; simp)
          · have hxyeq : x = y := le_antisymm (not_lt.mp hyx) (not_lt.mp hxy)
            subst hxyeq
            rw [if_neg (lt_irrefl x), if_neg (lt_irrefl x)] at hab
            by_cases hyz : x < z
            · rw [if_pos hyz]
            · by_cases hzy : z < x
              · exact absurd hbc (by rw [if_neg hyz, if_pos hzy]; simp)
              · rw [if_neg hyz, if_neg hzy] at hbc ⊢
                exact ih ys zs hab hbc

theorem charsLe_antisymm (a b : List Char) (hab : charsLe a b = true)
    (hba : charsLe b a = true) : a = b := by
  induction a generalizing b with
  | nil =>
    cases b with
    | nil => rfl
    | cons y ys => exact absurd hba (by simp [charsLe])
  | cons x xs ih =>
    cases b with
    | nil => exact absurd hab (by simp [charsLe])
    | cons y ys =>
      rw [charsLe_cons] at hab hba
      by_cases hxy : x < y
      · exact absurd hba (by rw [if_neg (asymm hxy), if_pos hxy]; simp)
      · by_cases hyx : y < x
        · exact absurd hab (by rw [if_neg hxy, if_pos hyx]; simp)
        · have hxyeq : x = y := le_antisymm (not_lt.mp hyx) (not_lt.mp hxy)
          subst hxyeq
          rw [if_neg (lt_irrefl x), if_neg (lt_irrefl x)] at hab hba
          rw [ih ys hab hba]

theorem pyStrLe_total (a b : String) : pyStrLe a b = true ∨ pyStrLe b a = true :=
  charsLe_total a.data b.data

theorem pyStrLe_trans (a b c : String) (hab : pyStrLe a b = true)
    (hbc : pyStrLe b c = true) : pyStrLe a c = true :=
  charsLe_trans a.data b.data c.data hab hbc

theorem pyStrLe_antisymm (a b : String) (hab : pyStrLe a b = true)
    (hba : pyStrLe b a = true) : a = b := by
  cases a with
  | mk la =>
    cases b with
    | mk lb =>
      have : la = lb := charsLe_antisymm la lb hab hba
      rw [this]

/-- Stable ordered insertion, the building block of the embedding of Python's
`sorted` on id strings (any stable comparison sort agrees with it elementwise
on string lists because pyStrLe is a total order). -/
def orderedInsertStr (x : String) : List String → List String
  | [] => [x]
  | y :: ys => if pyStrLe x y then x :: y :: ys else y :: orderedInsertStr x ys

/-- Embeds `sorted(visits)` of load_customers. -/
def pySorted : List String → List String
  | [] => []
  | x :: xs => orderedInsertStr x (pySorted xs)

theorem orderedInsertStr_perm (x : String) (l : List String) :
    List.Perm (orderedInsertStr x l) (x :: l) := by
  induction l with
  | nil => exact List.Perm.refl _
  | cons y ys ih =>
    unfold orderedInsertStr
    by_cases h : pyStrLe x y = true
    · rw [if_pos h]
    · rw [if_neg h]
      exact (ih.cons y).trans (List.Perm.swap x y ys)

theorem pySorted_perm (l : List String) : List.Perm (pySorted l) l := by
  induction l with
  | nil => exact List.Perm.refl _
  | cons x xs ih =>
    exact (orderedInsertStr_perm x (pySorted xs)).trans (ih.cons x)

theorem mem_orderedInsertStr (x z : String) (l : List String) :
    z ∈ orderedInsertStr x l ↔ z = x ∨ z ∈ l := by
  constructor
  · intro h
    rcases List.mem_cons.mp ((orderedInsertStr_perm x l).mem_iff.mp h) with h2 | h2
    · exact Or.inl h2
    · exact Or.inr h2
  · intro h
    apply (orderedInsertStr_perm x l).mem_iff.mpr
    rcases h with h2 | h2
    · exact h2 ▸ List.mem_cons_self x l
    · exact List.mem_cons_of_mem x h2

theorem pairwise_orderedInsertStr (x : String) (l : List String)
    (hl : List.Pairwise (fun a b => pyStrLe a b = true) l) :
    List.Pairwise (fun a b => pyStrLe a b = true) (orderedInsertStr x l) := by
  induction l with
  | nil => simp [orderedInsertStr]
  | cons y ys ih =>
    unfold orderedInsertStr
    rcases List.pairwise_cons.mp hl with ⟨hyall, hys⟩
    by_cases h : pyStrLe x y = true
    · rw [if_pos h]
      refine List.pairwise_cons.mpr ⟨?_, hl⟩
      intro b hb
      rcases List.mem_cons.mp hb with rfl | hbys
      · exact h
      · exact pyStrLe_trans x y b h (hyall b hbys)
    · rw [if_neg h]
      refine List.pairwise_cons.mpr ⟨?_, ih hys⟩
      intro b hb
      rcases (mem_orderedInsertStr x b ys).mp hb with rfl | hbys
      · rcases pyStrLe_total b y with h2 | h2
        · exact absurd h2 h
        · exact h2
      · exact hyall b hbys

theorem pairwise_pySorted (l : List String) :
    List.Pairwise (fun a b => pyStrLe a b = true) (pySorted l) := by
  induction l with
  | nil => exact List.Pairwise.nil
  | cons x xs ih => exact pairwise_orderedInsertStr x (pySorted xs) ih

/-- The character for decimal digit `d`. -/
def digitChar (d : ℕ) : Char := Char.ofNat (d + 48)

/-- Numeric value of an ASCII digit character. -/
def charDigit (c : Char) : ℕ := c.toNat - 48

/-- Value of a big-endian run of ASCII digit characters. -/
def natOfDigitChars (cs : List Char) : ℕ := cs.foldl (fun a c => 10 * a + charDigit c) 0

/-- Embeds Python `int(s)` on the id strings the program handles: an optional
minus sign followed by one or more ASCII digits (other int() spellings such
as whitespace or underscores never occur in ids). none embeds the ValueError
int() raises on malformed input. -/
def pyInt? (s : String) : Option ℤ :=
  match s.data with
  | [] => none
  | c :: cs =>
    if c = '-' then
      if cs ≠ [] ∧ cs.all Char.isDigit = true then some (-(natOfDigitChars cs : ℤ))
      else none
    else
      if (c :: cs).all Char.isDigit = true then some ((natOfDigitChars (c :: cs) : ℤ))
      else none

/-- Little-endian base-10 digits, computed with explicit fuel so that the
definition reduces in the kernel; `natDigitsLE_eq_digits` identifies it with
Mathlib's Nat.digits. -/
def digitsRevAux : ℕ → ℕ → List ℕ
  | 0, _ => []
  | _ + 1, 0 => []
  | fuel + 1, m + 1 => (m + 1) % 10 :: digitsRevAux fuel ((m + 1) / 10)

/-- Little-endian base-10 digits of `n` (empty for 0). -/
def natDigitsLE (n : ℕ) : List ℕ := digitsRevAux n n

theorem digitsRevAux_eq_digits (fuel n : ℕ) (h : n ≤ fuel) :
    digitsRevAux fuel n = Nat.digits 10 n := by
  induction fuel generalizing n with
  | zero =>
    have hn : n = 0 := Nat.le_zero.mp h
    rw [hn, Nat.digits_zero]
    rfl
  | succ fuel2 ih =>
    cases n with
    | zero =>
      rw [Nat.digits_zero]
      rfl
    | succ m =>
      rw [Nat.digits_def' (by omega : (1 : ℕ) < 10) (Nat.succ_pos m)]
      unfold digitsRevAux
      rw [ih ((m + 1) / 10) (by
        have := Nat.div_lt_self (Nat.succ_pos m) (by omega : (1 : ℕ) < 10)
        omega)]

theorem natDigitsLE_eq_digits (n : ℕ) : natDigitsLE n = Nat.digits 10 n :=
  digitsRevAux_eq_digits n n (le_refl n)

/-- Big-endian decimal digit characters of `n` (empty for 0). -/
def natDigitsBE (n : ℕ) : List Char := ((natDigitsLE n).map digitChar).reverse

/-- Decimal representation of a natural number, as Python str() renders it. -/
def natRepr (n : ℕ) : String := if n = 0 then "0" else String.mk (natDigitsBE n)

/-- Left-pad with zero characters to width `w` (no-op when already wider). -/
def padZeros (s : String) (w : ℕ) : String :=
  String.mk (List.replicate (w - s.data.length) '0' ++ s.data)

/-- Embeds the Python format expression f"{n:06d}" used to mint customer ids
(src/gocheche/utils.py line 211): pad to a MINIMUM total width of six with
leading zeros (the sign occupies one column for negative n); numbers needing
more than six digits are rendered at their natural, wider length. -/
def format06 (n : ℤ) : String :=
  if n < 0 then "-" ++ padZeros (natRepr n.natAbs) 5 else padZeros (natRepr n.natAbs) 6

/-- Well-formed customer id: at least six characters, all ASCII digits — the
shape every id minted by f"{n:06d}" with n ≥ 0 has, and the shape of every id
the program itself writes to the customers file. -/
def isCanonicalId (s : String) : Bool :=
  decide (6 ≤ s.data.length) && s.data.all Char.isDigit

/-- Embeds `max(int(customer.cust_id) for customer in known_customers)`; the
empty case is never reached (the caller guards on a non-empty list). -/
def int_list_max : List ℤ → ℤ
  | [] => 0
  | a :: rest => rest.foldl max a

theorem isDigit_iff_toNat (c : Char) : c.isDigit = true ↔ 48 ≤ c.toNat ∧ c.toNat ≤ 57 := by
  simp only [Char.isDigit, Bool.and_eq_true, decide_eq_true_eq, ge_iff_le]
  constructor
  · rintro ⟨h1, h2⟩
    exact ⟨h1, h2⟩
  · rintro ⟨h1, h2⟩
    exact ⟨h1, h2⟩

theorem toNat_digitChar (d : ℕ) (h : d < 10) : (digitChar d).toNat = d + 48 := by
  have hv : (d + 48).isValidChar := Or.inl (by omega)
  unfold digitChar Char.ofNat
  rw [dif_pos hv]
  show (UInt32.ofNatCore (d + 48) _).toNat = d + 48
  simp [UInt32.ofNatCore, UInt32.toNat, Char.toNat]

theorem charDigit_digitChar (d : ℕ) (h : d < 10) : charDigit (digitChar d) = d := by
  unfold charDigit
  rw [toNat_digitChar d h]
  omega

theorem isDigit_digitChar (d : ℕ) (h : d < 10) : (digitChar d).isDigit = true := by
  rw [isDigit_iff_toNat, toNat_digitChar d h]
  omega

theorem charDigit_zeroChar : charDigit '0' = 0 := by decide

theorem natOfDigitChars_replicate_zeros (k : ℕ) (cs : List Char) :
    natOfDigitChars (List.replicate k '0' ++ cs) = natOfDigitChars cs := by
  induction k with
  | zero => rfl
  | succ k2 ih =>
    have hrep : List.replicate (k2 + 1) '0' ++ cs = '0' :: (List.replicate k2 '0' ++ cs) := by
      rw [List.replicate_succ, List.cons_append]
    rw [hrep]
    unfold natOfDigitChars at ih ⊢
    rw [List.foldl_cons]
    have : (10 * 0 + charDigit '0') = 0 := by decide
    rw [this]
    exact ih

theorem natOfDigitChars_append_single (cs : List Char) (c : Char) :
    natOfDigitChars (cs ++ [c]) = 10 * natOfDigitChars cs + charDigit c := by
  unfold natOfDigitChars
  rw [List.foldl_append]
  rfl

theorem natOfDigitChars_rev_map (l : List ℕ) (hl : ∀ d ∈ l, d < 10) :
    natOfDigitChars ((l.map digitChar).reverse) = Nat.ofDigits 10 l := by
  induction l with
  | nil => rfl
  | cons a l2 ih =>
    have hrw : ((a :: l2).map digitChar).reverse
        = (l2.map digitChar).reverse ++ [digitChar a] := by
      rw [List.map_cons, List.reverse_cons]
    rw [hrw, natOfDigitChars_append_single,
      ih (fun d hd => hl d (List.mem_cons_of_mem a hd)),
      charDigit_digitChar a (hl a (List.mem_cons_self a l2)), Nat.ofDigits_cons]
    ring

theorem natOfDigitChars_natDigitsBE (n : ℕ) :
    natOfDigitChars (natDigitsBE n) = n := by
  unfold natDigitsBE
  rw [natDigitsLE_eq_digits]
  rw [natOfDigitChars_rev_map (Nat.digits 10 n)
    (fun d hd => Nat.digits_lt_base (by omega) hd)]
  exact Nat.ofDigits_digits 10 n

theorem natRepr_data_digits (n : ℕ) : ∀ c ∈ (natRepr n).data, c.isDigit = true := by
  unfold natRepr
  by_cases h : n = 0
  · rw [if_pos h]
    intro c hc
    rcases List.mem_singleton.mp hc with rfl
    decide
  · rw [if_neg h]
    intro c hc
    unfold natDigitsBE at hc
    rw [natDigitsLE_eq_digits, List.mem_reverse] at hc
    obtain ⟨d, hd, rfl⟩ := List.mem_map.mp hc
    exact isDigit_digitChar d (Nat.digits_lt_base (by omega) hd)

theorem natRepr_data_ne_nil (n : ℕ) : (natRepr n).data ≠ [] := by
  unfold natRepr
  by_cases h : n = 0
  · rw [if_pos h]
    decide
  · rw [if_neg h]
    intro hcon
    have hdig : Nat.digits 10 n ≠ [] := Nat.digits_ne_nil_iff_ne_zero.mpr h
    unfold natDigitsBE at hcon
    rw [natDigitsLE_eq_digits, List.reverse_eq_nil_iff, List.map_eq_nil_iff] at hcon
    exact hdig hcon

theorem natOfDigitChars_natRepr (n : ℕ) : natOfDigitChars (natRepr n).data = n := by
  unfold natRepr
  by_cases h : n = 0
  · rw [if_pos h, h]
    decide
  · rw [if_neg h]
    exact natOfDigitChars_natDigitsBE n

theorem pyInt?_of_digits (cs : List Char) (hne : cs ≠ [])
    (hdig : ∀ c ∈ cs, c.isDigit = true) :
    pyInt? (String.mk cs) = some ((natOfDigitChars cs : ℕ) : ℤ) := by
  cases cs with
  | nil => exact absurd rfl hne
  | cons c rest =>
    have hc : c.isDigit = true := hdig c (List.mem_cons_self c rest)
    have hcm : ¬ c = '-' := by
      intro hcon
      rw [hcon] at hc
      exact absurd hc (by decide)
    have hall : (c :: rest).all Char.isDigit = true :=
      List.all_eq_true.mpr (fun x hx => hdig x hx)
    have hstep : pyInt? (String.mk (c :: rest))
        = if c = '-' then
            (if rest ≠ [] ∧ rest.all Char.isDigit = true
              then some (-(natOfDigitChars rest : ℕ) : ℤ) else none)
          else
            (if (c :: rest).all Char.isDigit = true
              then some (((natOfDigitChars (c :: rest) : ℕ)) : ℤ) else none) := rfl
    rw [hstep, if_neg hcm, if_pos hall]

theorem pyInt?_format06 (n : ℤ) (h : 0 ≤ n) : pyInt? (format06 n) = some n := by
  unfold format06
  rw [if_neg (not_lt.mpr h)]
  unfold padZeros
  rw [pyInt?_of_digits _ ?hne ?hdig]
  · rw [natOfDigitChars_replicate_zeros, natOfDigitChars_natRepr,
      Int.natAbs_of_nonneg h]
  case hne =>
    intro hcon
    rcases List.append_eq_nil.mp hcon with ⟨_, h2⟩
    exact natRepr_data_ne_nil n.natAbs h2
  case hdig =>
    intro c hc
    rcases List.mem_append.mp hc with h2 | h2
    · rcases List.eq_of_mem_replicate h2 with rfl
      decide
    · exact natRepr_data_digits n.natAbs c h2

theorem format06_length (n : ℤ) (h : 0 ≤ n) :
    (format06 n).length = max 6 (natRepr n.natAbs).data.length := by
  unfold format06
  rw [if_neg (not_lt.mpr h)]
  unfold padZeros
  show (List.replicate (6 - (natRepr n.natAbs).data.length) '0'
      ++ (natRepr n.natAbs).data).length = _
  rw [List.length_append, List.length_replicate]
  omega

theorem format06_canonical (n : ℤ) (h : 0 ≤ n) : isCanonicalId (format06 n) = true := by
  unfold format06
  rw [if_neg (not_lt.mpr h)]
  unfold isCanonicalId padZeros
  rw [Bool.and_eq_true, decide_eq_true_eq, List.all_eq_true]
  constructor
  · show 6 ≤ (List.replicate _ '0' ++ _).length
    rw [List.length_append, List.length_replicate]
    omega
  · intro c hc
    rcases List.mem_append.mp hc with h2 | h2
    · rcases List.eq_of_mem_replicate h2 with rfl
      decide
    · exact natRepr_data_digits n.natAbs c h2

theorem canonical_pyInt (s : String) (h : isCanonicalId s = true) :
    ∃ k : ℕ, pyInt? s = some ((k : ℕ) : ℤ) := by
  unfold isCanonicalId at h
  rw [Bool.and_eq_true, decide_eq_true_eq, List.all_eq_true] at h
  obtain ⟨hlen, hdig⟩ := h
  refine ⟨natOfDigitChars s.data, ?_⟩
  have hne : s.data ≠ [] := by
    intro hcon
    rw [hcon] at hlen
    simp at hlen
  have := pyInt?_of_digits s.data hne (fun c hc => hdig c hc)
  cases s with
  | mk l => exact this

theorem zeros_charsLe (k : ℕ) (cs : List Char) (hk : k ≤ cs.length)
    (hdig : ∀ c ∈ cs, c.isDigit = true) :
    charsLe (List.replicate k '0') cs = true := by
  induction k generalizing cs with
  | zero => rfl
  | succ k2 ih =>
    cases cs with
    | nil => simp at hk
    | cons c rest =>
      rw [List.replicate_succ, charsLe_cons]
      by_cases hlt : '0' < c
      · rw [if_pos hlt]
      · rw [if_neg hlt]
        have hcd : 48 ≤ c.toNat :=
          ((isDigit_iff_toNat c).mp (hdig c (List.mem_cons_self c rest))).1
        have hnlt : ¬ c < '0' := by
          intro hcon
          have : c.toNat < 48 := hcon
          omega
        rw [if_neg hnlt]
        exact ih rest (by simpa using hk)
          (fun d hd => hdig d (List.mem_cons_of_mem c hd))

theorem depot_pyStrLe_canonical (s : String) (h : isCanonicalId s = true) :
    pyStrLe DEPOT_CUST_ID s = true := by
  unfold isCanonicalId at h
  rw [Bool.and_eq_true, decide_eq_true_eq, List.all_eq_true] at h
  obtain ⟨hlen, hdig⟩ := h
  unfold pyStrLe
  have hdep : DEPOT_CUST_ID.data = List.replicate 6 '0' := by decide
  rw [hdep]
  exact zeros_charsLe 6 s.data hlen (fun c hc => hdig c hc)

theorem le_foldl_max (l : List ℤ) (b : ℤ) : b ≤ l.foldl max b := by
  induction l generalizing b with
  | nil => exact le_refl b
  | cons a l2 ih =>
    rw [List.foldl_cons]
    exact le_trans (le_max_left b a) (ih (max b a))

theorem mem_le_foldl_max (l : List ℤ) (b x : ℤ) (hx : x ∈ l) : x ≤ l.foldl max b := by
  induction l generalizing b with
  | nil => simp at hx
  | cons a l2 ih =>
    rw [List.foldl_cons]
    rcases List.mem_cons.mp hx with rfl | h2
    · exact le_trans (le_max_right b x) (le_foldl_max l2 (max b x))
    · exact ih (max b a) h2

theorem le_int_list_max (l : List ℤ) (x : ℤ) (hx : x ∈ l) : x ≤ int_list_max l := by
  cases l with
  | nil => simp at hx
  | cons a rest =>
    unfold int_list_max
    rcases List.mem_cons.mp hx with rfl | h2
    · exact le_foldl_max rest x
    · exact mem_le_foldl_max rest a x h2

/-- Embeds get_known_customer (src/gocheche/utils.py lines 112-123): scans the
known list for the first customer with the given name and address, sets its
visit flag (the source mutates the shared object, so the updated record is
also written back into the list) and returns it; returns the list unchanged
when there is no match. -/
def get_known_customer (name address : String) (customers : List Customer)
    (visit : Bool) : Option Customer × List Customer :=
  match customers with
  | [] => (none, [])
  | c :: rest =>
    if c.name = name ∧ c.address = address then
      (some { c with visit := visit }, { c with visit := visit } :: rest)
    else
      let r := get_known_customer name address rest visit
      (r.1, c :: r.2)

/-- Embeds get_known_customer_by_id (src/gocheche/utils.py lines 126-132). -/
def get_known_customer_by_id (cid : String) (customers : List Customer) :
    Option Customer :=
  match customers with
  | [] => none
  | c :: rest => if c.cust_id = cid then some c else get_known_customer_by_id cid rest

/-- Embeds the next-id initialisation of load_customers (utils lines 186-190):
0 when no customers are known, else one plus the maximum id as an integer;
none embeds the ValueError int() raises on an unparsable stored id. -/
def next_cust_id_init (known_customers : List Customer) : Option ℤ :=
  if known_customers.isEmpty then some 0
  else (known_customers.mapM (fun c => pyInt? c.cust_id)).map
    (fun l => int_list_max l + 1)

/-- Mutable locals of the row loop of load_customers. new_count counts the
provider fetches made so far (it indexes the response parameters) and new_ids
records, in order, the fresh ids handed out (the values the source logs at
utils line 213). -/
structure LoadState where
  known : List Customer
  dists : PyDict (String × String) ℚ
  cust_dict : PyDict String Customer
  visits : List String
  next_id : ℤ
  new_count : ℕ
  new_ids : List String
deriving Repr

/-- One iteration of the row loop of load_customers (utils lines 195-236).
`geo` embeds get_address (external geocoder): raw address to (formatted
address, latitude, longitude). A known match is recorded and flagged for
visiting; an unknown row mints the next id, fetches its distances through
get_dists_to_from_new_cust with the provider responses for this fetch, and
appends the new customer to the known list and the distances to the dict. -/
def load_row (geo : String → String × ℚ × ℚ) (resp_from resp_to : ℕ → ℕ → ℚ)
    (row : String × String) (st : LoadState) : LoadState :=
  let name := row.1
  let ga := geo row.2
  let address := ga.1
  let found := get_known_customer name address st.known true
  match found.1 with
  | some cust =>
    { st with
        known := found.2
        cust_dict := st.cust_dict ++ [(cust.cust_id, cust)]
        visits := st.visits ++ [cust.cust_id] }
  | none =>
    let cust_id := format06 st.next_id
    let cust := mkCustomer cust_id name address ga.2.1 ga.2.2 true
    let new_dists := get_dists_to_from_new_cust cust st.known
      (resp_from st.new_count) (resp_to st.new_count)
    { known := st.known ++ [cust]
      dists := st.dists ++ new_dists
      cust_dict := st.cust_dict ++ [(cust.cust_id, cust)]
      visits := st.visits ++ [cust.cust_id]
      next_id := st.next_id + 1
      new_count := st.new_count + 1
      new_ids := st.new_ids ++ [cust_id] }

/-- The row loop of load_customers over the parsed visits CSV. -/
def load_rows (geo : String → String × ℚ × ℚ) (resp_from resp_to : ℕ → ℕ → ℚ) :
    List (String × String) → LoadState → LoadState
  | [], st => st
  | row :: rest, st =>
    load_rows geo resp_from resp_to rest (load_row geo resp_from resp_to row st)

/-- The triple load_customers returns on success, plus the new_ids
instrumentation (the fresh ids the source logs while loading). -/
structure LoadOk where
  cust_dict : PyDict String Customer
  visits : List String
  distances_dict : PyDict (String × String) ℚ
  new_ids : List String
deriving Repr, DecidableEq

/-- Outcome of load_customers: a normal return, a raised exception, or — the
line-255 peculiarity — a ValueError object handed back as the return value
(`return ValueError(...)`, not `raise`). -/
inductive LoadResult
  | ok : LoadOk → LoadResult
  | raised : String → LoadResult
  | returned_error : String → LoadResult
deriving DecidableEq

/-- The post-loop half of load_customers (utils lines 238-259): sort the visit
ids, force the depot into slot 0 when absent, resolve the depot customer
(raising when it cannot be found), and run the duplicate check — whose failure
arm executes `return ValueError(...)`, handing the error object back as the
function's value instead of raising it. -/
def load_epilogue (st : LoadState) : LoadResult :=
  let visits1 := pySorted st.visits
  let visits2 := if DEPOT_CUST_ID ∈ visits1 then visits1 else DEPOT_CUST_ID :: visits1
  match (if (pyGet st.cust_dict DEPOT_CUST_ID).isSome then some st.cust_dict
    else
      match get_known_customer_by_id DEPOT_CUST_ID st.known with
      | none => none
      | some dc => some (st.cust_dict ++ [(DEPOT_CUST_ID, dc)])) with
  | none =>
    LoadResult.raised
      "Customer info is required but could not be found for the depot location (ID 000000)."
  | some cust_dict2 =>
    if visits2.length ≠ visits2.dedup.length then
      LoadResult.returned_error "Some customers are duplicated in the visits file."
    else
      LoadResult.ok
        { cust_dict := cust_dict2
          visits := visits2
          distances_dict := st.dists
          new_ids := st.new_ids }

/-- Embeds load_customers (src/gocheche/utils.py lines 149-259), with the
external collaborators as parameters: `geo` is get_address, and
`resp_from k` / `resp_to k` are the provider duration responses of the k-th
new-customer fetch. `rows` is the parsed visits CSV (name, raw address);
known_customers0 and distances_dict0 are the contents of the customers file
(load_known_customer_data). The persistence side effect
add_to_known_customer_data is outside this embedding. -/
def load_customers (geo : String → String × ℚ × ℚ) (resp_from resp_to : ℕ → ℕ → ℚ)
    (rows : List (String × String)) (known_customers0 : List Customer)
    (distances_dict0 : PyDict (String × String) ℚ) : LoadResult :=
  match next_cust_id_init known_customers0 with
  | none => LoadResult.raised "invalid literal for int() with base 10"
  | some n0 =>
    load_epilogue (load_rows geo resp_from resp_to rows
      { known := known_customers0
        dists := distances_dict0
        cust_dict := []
        visits := []
        next_id := n0
        new_count := 0
        new_ids := [] })

theorem mapM_option_mem {α β : Type} (f : α → Option β) (l : List α) (res : List β)
    (h : l.mapM f = some res) :
    ∀ a ∈ l, ∃ b, f a = some b ∧ b ∈ res := by
  induction l generalizing res with
  | nil =>
    intro a ha
    simp at ha
  | cons x xs ih =>
    rw [List.mapM_cons] at h
    cases hfx : f x with
    | none => rw [hfx] at h; simp at h
    | some bx =>
      rw [hfx] at h
      cases hrest : xs.mapM f with
      | none => rw [hrest] at h; simp at h
      | some bs =>
        rw [hrest] at h
        simp only [Option.pure_def, Option.bind_eq_bind, Option.some_bind,
          Option.some.injEq] at h
        intro a ha
        rcases List.mem_cons.mp ha with rfl | ha2
        · exact ⟨bx, hfx, by rw [← h]; exact List.mem_cons_self bx bs⟩
        · obtain ⟨b, hb1, hb2⟩ := ih bs hrest a ha2
          exact ⟨b, hb1, by rw [← h]; exact List.mem_cons_of_mem bx hb2⟩

theorem get_known_customer_ids (name address : String) (l : List Customer) (v : Bool) :
    ((get_known_customer name address l v).2).map (fun c => c.cust_id)
        = l.map (fun c => c.cust_id) ∧
    (∀ c, (get_known_customer name address l v).1 = some c →
      c.cust_id ∈ l.map (fun c2 => c2.cust_id)) := by
  induction l with
  | nil =>
    refine ⟨rfl, ?_⟩
    intro c hc
    exact absurd hc (by simp [get_known_customer])
  | cons x xs ih =>
    unfold get_known_customer
    by_cases hm : x.name = name ∧ x.address = address
    · rw [if_pos hm]
      refine ⟨by simp, ?_⟩
      intro c hc
      simp only [Option.some.injEq] at hc
      rw [← hc]
      simp
    · rw [if_neg hm]
      refine ⟨by simpa using ih.1, ?_⟩
      intro c hc
      simp only [] at hc
      exact List.mem_cons_of_mem _ (ih.2 c hc)

/-- Strict order on id strings through their integer values, the order in
which fresh ids are minted. -/
def pyIntLt (a b : String) : Prop :=
  ∀ x y : ℤ, pyInt? a = some x → pyInt? b = some y → x < y

/-- Invariant of the load_customers row loop, relative to the starting id
counter n0: the id counter never decreases, every known customer id and every
recorded visit id is canonical, and the fresh ids minted so far are format06
images of integers in [n0, next_id), in strictly increasing order. -/
def LoadInv (n0 : ℤ) (st : LoadState) : Prop :=
  n0 ≤ st.next_id ∧
  (∀ c ∈ st.known, isCanonicalId c.cust_id = true) ∧
  (∀ v ∈ st.visits, isCanonicalId v = true) ∧
  (∀ s ∈ st.new_ids, ∃ x : ℤ, n0 ≤ x ∧ x < st.next_id ∧ s = format06 x ∧
    pyInt? s = some x) ∧
  List.Pairwise pyIntLt st.new_ids

theorem load_row_eq_known (geo : String → String × ℚ × ℚ)
    (resp_from resp_to : ℕ → ℕ → ℚ) (row : String × String) (st : LoadState)
    (cust : Customer)
    (hf : (get_known_customer row.1 (geo row.2).1 st.known true).1 = some cust) :
    load_row geo resp_from resp_to row st =
      { st with
          known := (get_known_customer row.1 (geo row.2).1 st.known true).2
          cust_dict := st.cust_dict ++ [(cust.cust_id, cust)]
          visits := st.visits ++ [cust.cust_id] } := by
  simp only [load_row]
  rw [hf]

theorem load_row_eq_new (geo : String → String × ℚ × ℚ)
    (resp_from resp_to : ℕ → ℕ → ℚ) (row : String × String) (st : LoadState)
    (hf : (get_known_customer row.1 (geo row.2).1 st.known true).1 = none) :
    load_row geo resp_from resp_to row st =
      { known := st.known ++ [mkCustomer (format06 st.next_id) row.1 (geo row.2).1
          (geo row.2).2.1 (geo row.2).2.2 true]
        dists := st.dists ++ get_dists_to_from_new_cust
          (mkCustomer (format06 st.next_id) row.1 (geo row.2).1
            (geo row.2).2.1 (geo row.2).2.2 true) st.known
          (resp_from st.new_count) (resp_to st.new_count)
        cust_dict := st.cust_dict ++ [(format06 st.next_id,
          mkCustomer (format06 st.next_id) row.1 (geo row.2).1
            (geo row.2).2.1 (geo row.2).2.2 true)]
        visits := st.visits ++ [format06 st.next_id]
        next_id := st.next_id + 1
        new_count := st.new_count + 1
        new_ids := st.new_ids ++ [format06 st.next_id] } := by
  simp only [load_row]
  rw [hf]
  rfl

theorem load_row_inv (geo : String → String × ℚ × ℚ)
    (resp_from resp_to : ℕ → ℕ → ℚ) (row : String × String) (st : LoadState)
    (n0 : ℤ) (h0 : 0 ≤ n0) (h : LoadInv n0 st) :
    LoadInv n0 (load_row geo resp_from resp_to row st) := by
  obtain ⟨hnext, hknown, hvisits, hnew, hpw⟩ := h
  cases hf : (get_known_customer row.1 (geo row.2).1 st.known true).1 with
  | some cust =>
    rw [load_row_eq_known geo resp_from resp_to row st cust hf]
    have hids := get_known_customer_ids row.1 (geo row.2).1 st.known true
    have hcanon_cust : isCanonicalId cust.cust_id = true := by
      obtain ⟨c2, hc2, hceq⟩ := List.mem_map.mp (hids.2 cust hf)
      rw [← hceq]
      exact hknown c2 hc2
    refine ⟨hnext, ?_, ?_, hnew, hpw⟩
    · intro c hc
      have hmem : c.cust_id ∈ ((get_known_customer row.1 (geo row.2).1 st.known
          true).2).map (fun c2 => c2.cust_id) :=
        List.mem_map_of_mem _ hc
      rw [hids.1] at hmem
      obtain ⟨c2, hc2, hceq⟩ := List.mem_map.mp hmem
      rw [← hceq]
      exact hknown c2 hc2
    · intro v hv
      rcases List.mem_append.mp hv with h2 | h2
      · exact hvisits v h2
      · rcases List.mem_singleton.mp h2 with rfl
        exact hcanon_cust
  | none =>
    rw [load_row_eq_new geo resp_from resp_to row st hf]
    unfold LoadInv
    dsimp only
    have hge : (0 : ℤ) ≤ st.next_id := le_trans h0 hnext
    have hcanon_new : isCanonicalId (format06 st.next_id) = true :=
      format06_canonical st.next_id hge
    have hparse_new : pyInt? (format06 st.next_id) = some st.next_id :=
      pyInt?_format06 st.next_id hge
    refine ⟨by omega, ?_, ?_, ?_, ?_⟩
    · intro c hc
      rcases List.mem_append.mp hc with h2 | h2
      · exact hknown c h2
      · rcases List.mem_singleton.mp h2 with rfl
        exact hcanon_new
    · intro v hv
      rcases List.mem_append.mp hv with h2 | h2
      · exact hvisits v h2
      · rcases List.mem_singleton.mp h2 with rfl
        exact hcanon_new
    · intro s hs
      rcases List.mem_append.mp hs with h2 | h2
      · obtain ⟨x, hx1, hx2, hx3, hx4⟩ := hnew s h2
        exact ⟨x, hx1, by omega, hx3, hx4⟩
      · rcases List.mem_singleton.mp h2 with rfl
        exact ⟨st.next_id, hnext, by omega, rfl, hparse_new⟩
    · rw [List.pairwise_append]
      refine ⟨hpw, List.pairwise_singleton _ _, ?_⟩
      intro a ha b hb
      rcases List.mem_singleton.mp hb with rfl
      obtain ⟨xa, _, hxa2, _, hxa4⟩ := hnew a ha
      intro x y hx hy
      rw [hxa4] at hx
      rw [hparse_new] at hy
      have hxeq : x = xa := by
        injection hx with hx2
        exact hx2.symm
      have hyeq : y = st.next_id := by
        injection hy with hy2
        exact hy2.symm
      rw [hxeq, hyeq]
      exact hxa2

theorem load_rows_inv (geo : String → String × ℚ × ℚ)
    (resp_from resp_to : ℕ → ℕ → ℚ) (rows : List (String × String))
    (st : LoadState) (n0 : ℤ) (h0 : 0 ≤ n0) (h : LoadInv n0 st) :
    LoadInv n0 (load_rows geo resp_from resp_to rows st) := by
  induction rows generalizing st with
  | nil => exact h
  | cons row rest ih =>
    exact ih (load_row geo resp_from resp_to row st)
      (load_row_inv geo resp_from resp_to row st n0 h0 h)

theorem mapM_option_exists {α β : Type} (f : α → Option β) (l : List α)
    (h : ∀ a ∈ l, ∃ b, f a = some b) :
    ∃ res : List β, l.mapM f = some res ∧ res.length = l.length := by
  induction l with
  | nil => exact ⟨[], rfl, rfl⟩
  | cons x xs ih =>
    obtain ⟨bx, hbx⟩ := h x (List.mem_cons_self x xs)
    obtain ⟨bs, hbs, hlen⟩ := ih (fun a ha => h a (List.mem_cons_of_mem x ha))
    refine ⟨bx :: bs, ?_, by simp [hlen]⟩
    rw [List.mapM_cons, hbx, hbs]
    rfl

theorem next_cust_id_init_spec (known0 : List Customer)
    (hcanon : ∀ c ∈ known0, isCanonicalId c.cust_id = true) :
    ∃ n0 : ℤ, next_cust_id_init known0 = some n0 ∧ 0 ≤ n0 ∧
      ∀ c ∈ known0, ∀ j : ℤ, pyInt? c.cust_id = some j → j < n0 := by
  by_cases he : known0.isEmpty
  · refine ⟨0, by simp [next_cust_id_init, he], le_refl 0, ?_⟩
    intro c hc
    rw [List.isEmpty_iff] at he
    rw [he] at hc
    simp at hc
  · have hparse : ∀ c ∈ known0, ∃ b, pyInt? c.cust_id = some b := by
      intro c hc
      obtain ⟨k, hk⟩ := canonical_pyInt c.cust_id (hcanon c hc)
      exact ⟨(k : ℤ), hk⟩
    obtain ⟨res, hres, hlen⟩ := mapM_option_exists (fun c => pyInt? c.cust_id) known0 hparse
    refine ⟨int_list_max res + 1, ?_, ?_, ?_⟩
    · unfold next_cust_id_init
      rw [if_neg he, hres]
      rfl
    · cases hk : known0 with
      | nil => rw [hk] at he; exact absurd rfl he
      | cons c cs =>
        have hc : c ∈ known0 := by rw [hk]; exact List.mem_cons_self c cs
        obtain ⟨k, hkparse⟩ := canonical_pyInt c.cust_id (hcanon c hc)
        obtain ⟨b, hb1, hb2⟩ := mapM_option_mem (fun c2 => pyInt? c2.cust_id) known0 res hres c hc
        rw [hkparse] at hb1
        have hbk : b = (k : ℤ) := by
          injection hb1 with h2
          exact h2.symm
        have := le_int_list_max res b hb2
        rw [hbk] at this
        have hknn : (0 : ℤ) ≤ (k : ℤ) := Int.natCast_nonneg k
        omega
    · intro c hc j hj
      obtain ⟨b, hb1, hb2⟩ := mapM_option_mem (fun c2 => pyInt? c2.cust_id) known0 res hres c hc
      rw [hj] at hb1
      have hbj : b = j := by
        injection hb1 with h2
        exact h2.symm
      have := le_int_list_max res b hb2
      omega

theorem load_epilogue_ok (st : LoadState) (r : LoadOk)
    (h : load_epilogue st = LoadResult.ok r) :
    r.new_ids = st.new_ids ∧
    r.distances_dict = st.dists ∧
    r.visits = (if DEPOT_CUST_ID ∈ pySorted st.visits then pySorted st.visits
      else DEPOT_CUST_ID :: pySorted st.visits) := by
  simp only [load_epilogue] at h
  split at h
  · exact LoadResult.noConfusion h
  · by_cases hdep : DEPOT_CUST_ID ∈ pySorted st.visits
    · rw [if_pos hdep] at h ⊢
      split at h
      · exact LoadResult.noConfusion h
      · injection h with h2
        rw [← h2]
        exact ⟨rfl, rfl, rfl⟩
    · rw [if_neg hdep] at h ⊢
      split at h
      · exact LoadResult.noConfusion h
      · injection h with h2
        rw [← h2]
        exact ⟨rfl, rfl, rfl⟩

/-- The fresh ids of a load run that returned normally (empty otherwise). -/
def LoadResult.ok_new_ids : LoadResult → List String
  | LoadResult.ok r => r.new_ids
  | _ => []

/-- C2 (code evaluated at the failing input): a visits file in which the same
customer appears twice makes load_customers execute `return ValueError(...)`
(utils line 255) — the ValueError is handed back as the function's return
value, not raised, so the run is not aborted by an exception. -/
theorem C2_duplicate_visits_returned_not_raised :
    load_customers (fun a => (a, 0, 0)) (fun _ _ => 0) (fun _ _ => 0)
        [("A", "a street"), ("A", "a street")]
        [mkCustomer "000000" "Depot" "depot street" 0 0 false] []
      = LoadResult.returned_error "Some customers are duplicated in the visits file." ∧
    ∀ msg : String,
      load_customers (fun a => (a, 0, 0)) (fun _ _ => 0) (fun _ _ => 0)
          [("A", "a street"), ("A", "a street")]
          [mkCustomer "000000" "Depot" "depot street" 0 0 false] []
        ≠ LoadResult.raised msg := by
  have h : load_customers (fun a => (a, 0, 0)) (fun _ _ => 0) (fun _ _ => 0)
      [("A", "a street"), ("A", "a street")]
      [mkCustomer "000000" "Depot" "depot street" 0 0 false] []
      = LoadResult.returned_error "Some customers are duplicated in the visits file." := by
    decide
  refine ⟨h, ?_⟩
  intro msg hcon
  rw [h] at hcon
  exact LoadResult.noConfusion hcon

/-- C7 counterexample: with a known customer id 999999 on file, the first
newly discovered stop is assigned id "1000000" — seven characters — so the
fresh ids are NOT zero-padded to a fixed width of six digits; the format pads
to a minimum of six. -/
theorem C7_counterexample_seven_char_id :
    LoadResult.ok_new_ids (load_customers (fun a => (a, 0, 0)) (fun _ _ => 0)
        (fun _ _ => 0) [("A", "a street")]
        [mkCustomer "000000" "Depot" "depot street" 0 0 false,
         mkCustomer "999999" "B" "b street" 0 0 false] [])
      = ["1000000"] ∧ ("1000000" : String).length ≠ 6 := by
  constructor
  · decide
  · decide

/-- C7 (amended): every id assigned to a newly discovered stop during a run
parses to an integer strictly greater than the integer value of every id
existing before the run; the ids assigned within one run are strictly
increasing in order of assignment; and each is rendered by the
minimum-width-six zero-padded format (hence is all digits and at least six
characters long, with wider ids kept at their natural length rather than a
fixed width). -/
theorem C7_fresh_ids (geo : String → String × ℚ × ℚ) (resp_from resp_to : ℕ → ℕ → ℚ)
    (rows : List (String × String)) (known0 : List Customer)
    (d0 : PyDict (String × String) ℚ)
    (hcanon : ∀ c ∈ known0, isCanonicalId c.cust_id = true)
    (r : LoadOk)
    (hok : load_customers geo resp_from resp_to rows known0 d0 = LoadResult.ok r) :
    (∀ s ∈ r.new_ids, ∃ x : ℤ, pyInt? s = some x ∧ 0 ≤ x ∧ s = format06 x ∧
      ∀ c ∈ known0, ∀ j : ℤ, pyInt? c.cust_id = some j → j < x) ∧
    List.Pairwise pyIntLt r.new_ids ∧
    (∀ s ∈ r.new_ids, isCanonicalId s = true) := by
  obtain ⟨n0, hinit, h0, hbound⟩ := next_cust_id_init_spec known0 hcanon
  unfold load_customers at hok
  rw [hinit] at hok
  have hinv : LoadInv n0 (load_rows geo resp_from resp_to rows
      { known := known0
        dists := d0
        cust_dict := []
        visits := []
        next_id := n0
        new_count := 0
        new_ids := [] }) :=
    load_rows_inv geo resp_from resp_to rows _ n0 h0
      ⟨le_refl n0, hcanon, by intro v hv; simp at hv, by intro s hs; simp at hs,
        List.Pairwise.nil⟩
  obtain ⟨hnids, _, _⟩ := load_epilogue_ok _ r hok
  obtain ⟨_, _, _, hnew, hpw⟩ := hinv
  rw [hnids]
  refine ⟨?_, hpw, ?_⟩
  · intro s hs
    obtain ⟨x, hx1, _, hx3, hx4⟩ := hnew s hs
    refine ⟨x, hx4, le_trans h0 hx1, hx3, ?_⟩
    intro c hc j hj
    exact lt_of_lt_of_le (hbound c hc j hj) hx1
  · intro s hs
    obtain ⟨x, hx1, _, hx3, _⟩ := hnew s hs
    rw [hx3]
    exact format06_canonical x (le_trans h0 hx1)

/-- C7 witness: the fresh-id theorem applied to a concrete run discovering one
new stop next to a known depot. -/
theorem C7_fresh_ids_witness :
    (∀ c ∈ [mkCustomer "000000" "Depot" "depot street" 0 0 false],
      isCanonicalId c.cust_id = true) ∧
    ((∀ s ∈ (LoadOk.mk
        [("000001", mkCustomer "000001" "A" "a street" 0 0 true),
         ("000000", mkCustomer "000000" "Depot" "depot street" 0 0 false)]
        ["000000", "000001"]
        [(("000001", "000000"), 0), (("000001", "000001"), 0),
         (("000000", "000001"), 0)]
        ["000001"]).new_ids,
      ∃ x : ℤ, pyInt? s = some x ∧ 0 ≤ x ∧ s = format06 x ∧
        ∀ c ∈ [mkCustomer "000000" "Depot" "depot street" 0 0 false],
          ∀ j : ℤ, pyInt? c.cust_id = some j → j < x) ∧
      List.Pairwise pyIntLt (LoadOk.mk
        [("000001", mkCustomer "000001" "A" "a street" 0 0 true),
         ("000000", mkCustomer "000000" "Depot" "depot street" 0 0 false)]
        ["000000", "000001"]
        [(("000001", "000000"), 0), (("000001", "000001"), 0),
         (("000000", "000001"), 0)]
        ["000001"]).new_ids ∧
      (∀ s ∈ (LoadOk.mk
        [("000001", mkCustomer "000001" "A" "a street" 0 0 true),
         ("000000", mkCustomer "000000" "Depot" "depot street" 0 0 false)]
        ["000000", "000001"]
        [(("000001", "000000"), 0), (("000001", "000001"), 0),
         (("000000", "000001"), 0)]
        ["000001"]).new_ids, isCanonicalId s = true)) := by
  refine ⟨by decide, ?_⟩
  exact C7_fresh_ids (fun a => (a, 0, 0)) (fun _ _ => 0) (fun _ _ => 0)
    [("A", "a street")] [mkCustomer "000000" "Depot" "depot street" 0 0 false] []
    (by decide) _ (by decide)

/-- C9: whenever load_customers returns normally (and every customer id on
file is canonical — at least six ASCII digits, the only shape the program
itself ever writes), the returned visit ordering contains the depot id, puts
it at index 0, and lists the remaining visit ids in ascending (Python string)
sorted order. -/
theorem C9_visits_ordering (geo : String → String × ℚ × ℚ)
    (resp_from resp_to : ℕ → ℕ → ℚ) (rows : List (String × String))
    (known0 : List Customer) (d0 : PyDict (String × String) ℚ)
    (hcanon : ∀ c ∈ known0, isCanonicalId c.cust_id = true)
    (r : LoadOk)
    (hok : load_customers geo resp_from resp_to rows known0 d0 = LoadResult.ok r) :
    DEPOT_CUST_ID ∈ r.visits ∧
    r.visits.head? = some DEPOT_CUST_ID ∧
    List.Pairwise (fun a b => pyStrLe a b = true) r.visits.tail := by
  obtain ⟨n0, hinit, h0, _⟩ := next_cust_id_init_spec known0 hcanon
  unfold load_customers at hok
  rw [hinit] at hok
  have hinv : LoadInv n0 (load_rows geo resp_from resp_to rows
      { known := known0
        dists := d0
        cust_dict := []
        visits := []
        next_id := n0
        new_count := 0
        new_ids := [] }) :=
    load_rows_inv geo resp_from resp_to rows _ n0 h0
      ⟨le_refl n0, hcanon, by intro v hv; simp at hv, by intro s hs; simp at hs,
        List.Pairwise.nil⟩
  obtain ⟨_, _, hvis⟩ := load_epilogue_ok _ r hok
  obtain ⟨_, _, hviscanon, _, _⟩ := hinv
  set st := load_rows geo resp_from resp_to rows
      { known := known0
        dists := d0
        cust_dict := []
        visits := []
        next_id := n0
        new_count := 0
        new_ids := [] } with hst
  have hvcanon : ∀ v ∈ pySorted st.visits, isCanonicalId v = true := by
    intro v hv
    exact hviscanon v ((pySorted_perm st.visits).mem_iff.mp hv)
  have hdepmin : ∀ v ∈ pySorted st.visits, pyStrLe DEPOT_CUST_ID v = true := by
    intro v hv
    exact depot_pyStrLe_canonical v (hvcanon v hv)
  have hsorted : List.Pairwise (fun a b => pyStrLe a b = true) (pySorted st.visits) :=
    pairwise_pySorted st.visits
  rw [hvis]
  by_cases hdep : DEPOT_CUST_ID ∈ pySorted st.visits
  · rw [if_pos hdep]
    cases hps : pySorted st.visits with
    | nil =>
      rw [hps] at hdep
      simp at hdep
    | cons hd tl =>
      rw [hps] at hdep hsorted hdepmin
      have hhd : hd = DEPOT_CUST_ID := by
        rcases List.mem_cons.mp hdep with heq | htl
        · exact heq.symm
        · have h1 : pyStrLe hd DEPOT_CUST_ID = true :=
            (List.pairwise_cons.mp hsorted).1 DEPOT_CUST_ID htl
          have h2 : pyStrLe DEPOT_CUST_ID hd = true :=
            hdepmin hd (List.mem_cons_self hd tl)
          exact pyStrLe_antisymm hd DEPOT_CUST_ID h1 h2
      refine ⟨?_, ?_, ?_⟩
      · rw [hhd]
        exact List.mem_cons_self _ _
      · rw [hhd]
        rfl
      · exact (List.pairwise_cons.mp hsorted).2
  · rw [if_neg hdep]
    exact ⟨List.mem_cons_self _ _, rfl, hsorted⟩

/-- C9 witness: the visit-ordering theorem applied to a concrete run in which
the depot is not on the visits file and one new stop is discovered. -/
theorem C9_visits_ordering_witness :
    (∀ c ∈ [mkCustomer "000000" "Depot" "depot street" 0 0 false],
      isCanonicalId c.cust_id = true) ∧
    (DEPOT_CUST_ID ∈ (LoadOk.mk
        [("000001", mkCustomer "000001" "A" "a street" 0 0 true),
         ("000000", mkCustomer "000000" "Depot" "depot street" 0 0 false)]
        ["000000", "000001"]
        [(("000001", "000000"), 0), (("000001", "000001"), 0),
         (("000000", "000001"), 0)]
        ["000001"]).visits ∧
      (LoadOk.mk
        [("000001", mkCustomer "000001" "A" "a street" 0 0 true),
         ("000000", mkCustomer "000000" "Depot" "depot street" 0 0 false)]
        ["000000", "000001"]
        [(("000001", "000000"), 0), (("000001", "000001"), 0),
         (("000000", "000001"), 0)]
        ["000001"]).visits.head? = some DEPOT_CUST_ID ∧
      List.Pairwise (fun a b => pyStrLe a b = true) (LoadOk.mk
        [("000001", mkCustomer "000001" "A" "a street" 0 0 true),
         ("000000", mkCustomer "000000" "Depot" "depot street" 0 0 false)]
        ["000000", "000001"]
        [(("000001", "000000"), 0), (("000001", "000001"), 0),
         (("000000", "000001"), 0)]
        ["000001"]).visits.tail) := by
  refine ⟨by decide, ?_⟩
  exact C9_visits_ordering (fun a => (a, 0, 0)) (fun _ _ => 0) (fun _ _ => 0)
    [("A", "a street")] [mkCustomer "000000" "Depot" "depot street" 0 0 false] []
    (by decide) _ (by decide)

/-- Embeds get_distance_matrix (src/gocheche/utils.py lines 395-398): the
dense duration matrix over exactly the ids in `visits`, in their order; a
pair absent from the dict surfaces as none (the Python dict lookup raises
KeyError there). -/
def get_distance_matrix (visits : List String)
    (distances : PyDict (String × String) ℚ) : List (List (Option ℚ)) :=
  visits.map (fun i => visits.map (fun j => pyGet distances (i, j)))

/-- All ordered pairs among the visit ids (diagonal included), the pairs the
model builder reads from the store. -/
def ordered_pairs (visits : List String) : List (String × String) :=
  (visits.map (fun i => visits.map (fun j => (i, j)))).flatten

/-- Modelled from the spec: `_check_for_missing_distances`, called by
runner.fetch_data (src/gocheche/runner.py line 103), is absent from
src/gocheche/utils.py. Per spec section 4.1, ensureComplete(ids) returns the
set of ordered pairs among ids missing from the store (empty if complete);
this predicate reports whether that set is non-empty. -/
def check_for_missing_distances (visits : List String)
    (distances : PyDict (String × String) ℚ) : Bool :=
  (ordered_pairs visits).any (fun p => (pyGet distances p).isNone)

/-- Modelled from the spec: `_find_missing_distances`, called by
runner.fetch_data (src/gocheche/runner.py line 112) when auto-fetch is
disabled, is absent from src/gocheche/utils.py. Per spec section 4.3 and
Scenario E, an incomplete store yields a DataConsistencyError naming the
missing pair(s); the error value carries the ordered pairs among the visit
ids that are missing from the store. -/
def find_missing_distances (visits : List String)
    (distances : PyDict (String × String) ℚ) :
    Except (List (String × String)) Unit :=
  let missing := (ordered_pairs visits).filter (fun p => (pyGet distances p).isNone)
  if missing.isEmpty then Except.ok () else Except.error missing

/-- Outcome of the distance-completeness stage of runner.fetch_data: either
the data reaches the solver, or a data-consistency error naming the missing
pairs aborts the run before any solve is attempted. -/
inductive FetchOutcome
  | ok : List String → PyDict (String × String) ℚ → FetchOutcome
  | dataConsistencyError : List (String × String) → FetchOutcome
deriving DecidableEq

/-- Embeds the distance-checking tail of runner.fetch_data
(src/gocheche/runner.py lines 102-112). When pairs are missing and auto-fetch
is enabled, the refetched full matrix (utils.get_distances, an external
provider call) is abstracted as the `fetched` parameter; with auto-fetch
disabled, the missing pairs are surfaced as a data-consistency error. -/
def fetch_data_distances (get_distances_flag : Bool)
    (fetched : PyDict (String × String) ℚ) (visits : List String)
    (distances : PyDict (String × String) ℚ) : FetchOutcome :=
  if check_for_missing_distances visits distances then
    if get_distances_flag then FetchOutcome.ok visits fetched
    else
      match find_missing_distances visits distances with
      | Except.ok _ => FetchOutcome.ok visits distances
      | Except.error missing => FetchOutcome.dataConsistencyError missing
  else FetchOutcome.ok visits distances

/-- C8: when any required ordered pair of visit ids is missing from the
distance store and auto-fetch is disabled, fetch_data surfaces a
data-consistency error whose payload names the missing pair, and does not
hand the data on to the solver (no partial solve is attempted). -/
theorem C8_missing_pair_aborts (visits : List String)
    (distances fetched : PyDict (String × String) ℚ) (p : String × String)
    (hp : p ∈ ordered_pairs visits) (hmiss : pyGet distances p = none) :
    ∃ missing : List (String × String),
      fetch_data_distances false fetched visits distances
          = FetchOutcome.dataConsistencyError missing ∧
      p ∈ missing ∧
      ∀ (v : List String) (d2 : PyDict (String × String) ℚ),
        fetch_data_distances false fetched visits distances ≠ FetchOutcome.ok v d2 := by
  have hcheck : check_for_missing_distances visits distances = true := by
    unfold check_for_missing_distances
    rw [List.any_eq_true]
    exact ⟨p, hp, by rw [hmiss]; rfl⟩
  have hpfilter : p ∈ (ordered_pairs visits).filter
      (fun q => (pyGet distances q).isNone) :=
    List.mem_filter.mpr ⟨hp, by rw [hmiss]; rfl⟩
  have hne : ¬ ((ordered_pairs visits).filter
      (fun q => (pyGet distances q).isNone)).isEmpty = true := by
    intro hcon
    rw [List.isEmpty_iff] at hcon
    rw [hcon] at hpfilter
    simp at hpfilter
  have hfind : find_missing_distances visits distances
      = Except.error ((ordered_pairs visits).filter
          (fun q => (pyGet distances q).isNone)) := by
    unfold find_missing_distances
    rw [if_neg hne]
  refine ⟨(ordered_pairs visits).filter (fun q => (pyGet distances q).isNone), ?_, hpfilter, ?_⟩
  · unfold fetch_data_distances
    rw [if_pos hcheck, if_neg (by simp), hfind]
  · intro v d2 hcon
    unfold fetch_data_distances at hcon
    rw [if_pos hcheck, if_neg (by simp), hfind] at hcon
    exact FetchOutcome.noConfusion hcon

/-- C8 witness: the missing-pair theorem at a concrete two-stop run with an
empty distance store. -/
theorem C8_missing_pair_aborts_witness :
    (("000000", "000001") ∈ ordered_pairs ["000000", "000001"] ∧
      pyGet ([] : PyDict (String × String) ℚ) ("000000", "000001") = none) ∧
    (∃ missing : List (String × String),
      fetch_data_distances false [] ["000000", "000001"] []
          = FetchOutcome.dataConsistencyError missing ∧
      ("000000", "000001") ∈ missing ∧
      ∀ (v : List String) (d2 : PyDict (String × String) ℚ),
        fetch_data_distances false [] ["000000", "000001"] []
          ≠ FetchOutcome.ok v d2) := by
  refine ⟨⟨by decide, rfl⟩, ?_⟩
  exact C8_missing_pair_aborts ["000000", "000001"] [] [] ("000000", "000001")
    (by decide) rfl

/-- The single-quote character, Python's default repr quote. -/
def squoteChar : Char := Char.ofNat 39

/-- The double-quote character, used by repr when the string contains a
single quote but no double quote. -/
def dquoteChar : Char := Char.ofNat 34

/-- Lowercase hex digit for a value below 16, as repr's \xNN escapes use. -/
def hexDigitChar (n : ℕ) : Char :=
  if n < 10 then Char.ofNat (n + 48) else Char.ofNat (n + 87)

/-- Value of a lowercase hex digit (uppercase never occurs in repr output). -/
def hexVal (c : Char) : Option ℕ :=
  if 48 ≤ c.toNat ∧ c.toNat ≤ 57 then some (c.toNat - 48)
  else if 97 ≤ c.toNat ∧ c.toNat ≤ 102 then some (c.toNat - 87)
  else none

/-- How CPython's str repr renders one character under the chosen quote:
backslash and the quote are backslash-escaped, newline, carriage return and
tab use their mnemonic escapes, remaining ASCII control characters (below
0x20, and 0x7f) use \xNN, and printable characters stand for themselves.
(For non-ASCII code points CPython consults the unicode printability tables;
the round-trip theorem below is stated for ASCII ids, where this embedding
matches CPython exactly.) -/
def escapeChar (quote : Char) (c : Char) : List Char :=
  if c = '\\' then ['\\', '\\']
  else if c = quote then ['\\', quote]
  else if c = '\n' then ['\\', 'n']
  else if c = '\r' then ['\\', 'r']
  else if c = '\t' then ['\\', 't']
  else if c.toNat < 32 ∨ c.toNat = 127 then
    ['\\', 'x', hexDigitChar (c.toNat / 16), hexDigitChar (c.toNat % 16)]
  else [c]

/-- escapeChar mapped over a character list. -/
def escapeList (quote : Char) : List Char → List Char
  | [] => []
  | c :: cs => escapeChar quote c ++ escapeList quote cs

/-- CPython's repr quote choice: single quotes, unless the string contains a
single quote and no double quote. -/
def reprQuote (s : String) : Char :=
  if s.data.contains squoteChar ∧ ¬ s.data.contains dquoteChar then dquoteChar
  else squoteChar

/-- The characters of repr(s). -/
def pyReprChars (s : String) : List Char :=
  reprQuote s :: (escapeList (reprQuote s) s.data ++ [reprQuote s])

/-- Embeds the Python key serialisation `str(custs_key)` of dist_dict_to_json
(src/gocheche/utils.py line 312) for a pair of id strings:
"(" + repr(a) + ", " + repr(b) + ")". -/
def dist_key_str (p : String × String) : String :=
  String.mk ('(' :: (pyReprChars p.1 ++ (',' :: ' ' :: pyReprChars p.2) ++ [')']))

/-- Embeds dist_dict_to_json (src/gocheche/utils.py lines 307-312): stringify
each tuple key, keep each duration. -/
def dist_dict_to_json (dist_dict : PyDict (String × String) ℚ) : PyDict String ℚ :=
  dist_dict.map (fun e => (dist_key_str e.1, e.2))

/-- Parses the body of a Python string literal up to the closing quote,
returning the decoded characters and the input remaining after the quote.
It covers the escapes repr emits (plus the alternate-quote escapes Python
always accepts); ill-formed input yields none. -/
def parseBody (quote : Char) : List Char → Option (List Char × List Char)
  | [] => none
  | c :: rest =>
    if c = quote then some ([], rest)
    else if c = '\\' then
      match rest with
      | [] => none
      | e :: rest2 =>
        if e = '\\' then
          (parseBody quote rest2).map (fun pr => ('\\' :: pr.1, pr.2))
        else if e = squoteChar then
          (parseBody quote rest2).map (fun pr => (squoteChar :: pr.1, pr.2))
        else if e = dquoteChar then
          (parseBody quote rest2).map (fun pr => (dquoteChar :: pr.1, pr.2))
        else if e = 'n' then
          (parseBody quote rest2).map (fun pr => ('\n' :: pr.1, pr.2))
        else if e = 'r' then
          (parseBody quote rest2).map (fun pr => ('\r' :: pr.1, pr.2))
        else if e = 't' then
          (parseBody quote rest2).map (fun pr => ('\t' :: pr.1, pr.2))
        else if e = 'x' then
          match rest2 with
          | h1 :: h2 :: rest3 =>
            match hexVal h1, hexVal h2 with
            | some v1, some v2 =>
              (parseBody quote rest3).map
                (fun pr => (Char.ofNat (16 * v1 + v2) :: pr.1, pr.2))
            | _, _ => none
          | _ => none
        else none
    else (parseBody quote rest).map (fun pr => (c :: pr.1, pr.2))

/-- Parses one quoted Python string literal from the front of the input. -/
def parseStringLit (cs : List Char) : Option (String × List Char) :=
  match cs with
  | [] => none
  | q :: rest =>
    if q = squoteChar ∨ q = dquoteChar then
      (parseBody q rest).map (fun pr => (String.mk pr.1, pr.2))
    else none

/-- Embeds `ast.literal_eval(custs_key)` of dist_dict_from_json
(src/gocheche/utils.py line 304) on the grammar of keys that str() of a pair
of strings emits: a parenthesized pair of quoted string literals separated by
a comma and a space. none embeds the error literal_eval raises on a malformed
key. -/
def parse_tuple_key (s : String) : Option (String × String) :=
  match s.data with
  | [] => none
  | c0 :: rest =>
    if c0 = '(' then
      match parseStringLit rest with
      | some (s1, rest1) =>
        match rest1 with
        | c1 :: c2 :: rest2 =>
          if c1 = ',' ∧ c2 = ' ' then
            match parseStringLit rest2 with
            | some (s2, rest3) =>
              match rest3 with
              | [c3] => if c3 = ')' then some (s1, s2) else none
              | _ => none
            | none => none
          else none
        | _ => none
      | none => none
    else none

/-- Embeds dist_dict_from_json (src/gocheche/utils.py lines 299-304): parse
every string key back into a tuple key; none embeds the exception on any
malformed key. -/
def dist_dict_from_json (json_dists : PyDict String ℚ) :
    Option (PyDict (String × String) ℚ) :=
  json_dists.mapM (fun e => (parse_tuple_key e.1).map (fun k => (k, e.2)))

theorem toNat_ofNat_small (n : ℕ) (h : n < 55296) : (Char.ofNat n).toNat = n := by
  have hv : n.isValidChar := Or.inl h
  unfold Char.ofNat
  rw [dif_pos hv]
  show (UInt32.ofNatCore n _).toNat = n
  simp [UInt32.ofNatCore, UInt32.toNat, Char.toNat]

theorem hexVal_hexDigitChar (v : ℕ) (h : v < 16) :
    hexVal (hexDigitChar v) = some v := by
  unfold hexDigitChar hexVal
  by_cases h10 : v < 10
  · rw [if_pos h10, toNat_ofNat_small (v + 48) (by omega),
      if_pos (by omega : 48 ≤ v + 48 ∧ v + 48 ≤ 57)]
    congr 1
  · rw [if_neg h10, toNat_ofNat_small (v + 87) (by omega),
      if_neg (by omega : ¬ (48 ≤ v + 87 ∧ v + 87 ≤ 57)),
      if_pos (by omega : 97 ≤ v + 87 ∧ v + 87 ≤ 102)]
    congr 1

theorem parseBody_cons_quote (quote : Char) (l : List Char) :
    parseBody quote (quote :: l) = some ([], l) := by
  conv_lhs => unfold parseBody
  rw [if_pos rfl]

theorem parseBody_cons_other (quote c : Char) (l : List Char)
    (h1 : ¬ c = quote) (h2 : ¬ c = '\\') :
    parseBody quote (c :: l) = (parseBody quote l).map (fun pr => (c :: pr.1, pr.2)) := by
  conv_lhs => unfold parseBody
  rw [if_neg h1, if_neg h2]

theorem parseBody_escape_backslash (quote : Char) (l : List Char)
    (hq : ¬ ('\\' : Char) = quote) :
    parseBody quote ('\\' :: '\\' :: l)
      = (parseBody quote l).map (fun pr => ('\\' :: pr.1, pr.2)) := by
  conv_lhs => unfold parseBody
  rw [if_neg hq, if_pos rfl]
  dsimp only
  rw [if_pos rfl]

theorem parseBody_escape_squote (quote : Char) (l : List Char)
    (hq : ¬ ('\\' : Char) = quote) :
    parseBody quote ('\\' :: squoteChar :: l)
      = (parseBody quote l).map (fun pr => (squoteChar :: pr.1, pr.2)) := by
  conv_lhs => unfold parseBody
  rw [if_neg hq, if_pos rfl]
  dsimp only
  rw [if_neg (by decide : ¬ squoteChar = '\\'), if_pos rfl]

theorem parseBody_escape_dquote (quote : Char) (l : List Char)
    (hq : ¬ ('\\' : Char) = quote) :
    parseBody quote ('\\' :: dquoteChar :: l)
      = (parseBody quote l).map (fun pr => (dquoteChar :: pr.1, pr.2)) := by
  conv_lhs => unfold parseBody
  rw [if_neg hq, if_pos rfl]
  dsimp only
  rw [if_neg (by decide : ¬ dquoteChar = '\\'),
    if_neg (by decide : ¬ dquoteChar = squoteChar), if_pos rfl]

theorem parseBody_escape_n (quote : Char) (l : List Char)
    (hq : ¬ ('\\' : Char) = quote) :
    parseBody quote ('\\' :: 'n' :: l)
      = (parseBody quote l).map (fun pr => ('\n' :: pr.1, pr.2)) := by
  conv_lhs => unfold parseBody
  rw [if_neg hq, if_pos rfl]
  dsimp only
  rw [if_neg (by decide : ¬ ('n' : Char) = '\\'),
    if_neg (by decide : ¬ ('n' : Char) = squoteChar),
    if_neg (by decide : ¬ ('n' : Char) = dquoteChar), if_pos rfl]

theorem parseBody_escape_r (quote : Char) (l : List Char)
    (hq : ¬ ('\\' : Char) = quote) :
    parseBody quote ('\\' :: 'r' :: l)
      = (parseBody quote l).map (fun pr => ('\r' :: pr.1, pr.2)) := by
  conv_lhs => unfold parseBody
  rw [if_neg hq, if_pos rfl]
  dsimp only
  rw [if_neg (by decide : ¬ ('r' : Char) = '\\'),
    if_neg (by decide : ¬ ('r' : Char) = squoteChar),
    if_neg (by decide : ¬ ('r' : Char) = dquoteChar),
    if_neg (by decide : ¬ ('r' : Char) = 'n'), if_pos rfl]

theorem parseBody_escape_t (quote : Char) (l : List Char)
    (hq : ¬ ('\\' : Char) = quote) :
    parseBody quote ('\\' :: 't' :: l)
      = (parseBody quote l).map (fun pr => ('\t' :: pr.1, pr.2)) := by
  conv_lhs => unfold parseBody
  rw [if_neg hq, if_pos rfl]
  dsimp only
  rw [if_neg (by decide : ¬ ('t' : Char) = '\\'),
    if_neg (by decide : ¬ ('t' : Char) = squoteChar),
    if_neg (by decide : ¬ ('t' : Char) = dquoteChar),
    if_neg (by decide : ¬ ('t' : Char) = 'n'),
    if_neg (by decide : ¬ ('t' : Char) = 'r'), if_pos rfl]

theorem parseBody_escape_hex (quote h1 h2 : Char) (l : List Char)
    (hq : ¬ ('\\' : Char) = quote) :
    parseBody quote ('\\' :: 'x' :: h1 :: h2 :: l)
      = match hexVal h1, hexVal h2 with
        | some v1, some v2 =>
          (parseBody quote l).map
            (fun pr => (Char.ofNat (16 * v1 + v2) :: pr.1, pr.2))
        | _, _ => none := by
  conv_lhs => unfold parseBody
  rw [if_neg hq, if_pos rfl]
  dsimp only
  rw [if_neg (by decide : ¬ ('x' : Char) = '\\'),
    if_neg (by decide : ¬ ('x' : Char) = squoteChar),
    if_neg (by decide : ¬ ('x' : Char) = dquoteChar),
    if_neg (by decide : ¬ ('x' : Char) = 'n'),
    if_neg (by decide : ¬ ('x' : Char) = 'r'),
    if_neg (by decide : ¬ ('x' : Char) = 't'), if_pos rfl]

theorem parseBody_escape_prepend (quote c : Char) (cs2 tl rest : List Char)
    (hq : quote = squoteChar ∨ quote = dquoteChar) (hascii : c.toNat < 128)
    (hrec : parseBody quote tl = some (cs2, rest)) :
    parseBody quote (escapeChar quote c ++ tl) = some (c :: cs2, rest) := by
  have hbq : ¬ ('\\' : Char) = quote := by
    rcases hq with rfl | rfl
    · decide
    · decide
  by_cases hc1 : c = '\\'
  · subst hc1
    have hesc : escapeChar quote '\\' = ['\\', '\\'] := by
      unfold escapeChar
      rw [if_pos rfl]
    rw [hesc]
    show parseBody quote ('\\' :: '\\' :: tl) = _
    rw [parseBody_escape_backslash quote tl hbq, hrec]
    rfl
  · by_cases hc2 : c = quote
    · subst hc2
      have hesc : escapeChar c c = ['\\', c] := by
        unfold escapeChar
        rw [if_neg hc1, if_pos rfl]
      rw [hesc]
      show parseBody c ('\\' :: c :: tl) = _
      rcases hq with rfl | rfl
      · rw [parseBody_escape_squote squoteChar tl hbq, hrec]
        rfl
      · rw [parseBody_escape_dquote dquoteChar tl hbq, hrec]
        rfl
    · by_cases hc3 : c = '\n'
      · subst hc3
        have hesc : escapeChar quote '\n' = ['\\', 'n'] := by
          unfold escapeChar
          rw [if_neg hc1, if_neg hc2, if_pos rfl]
        rw [hesc]
        show parseBody quote ('\\' :: 'n' :: tl) = _
        rw [parseBody_escape_n quote tl hbq, hrec]
        rfl
      · by_cases hc4 : c = '\r'
        · subst hc4
          have hesc : escapeChar quote '\r' = ['\\', 'r'] := by
            unfold escapeChar
            rw [if_neg hc1, if_neg hc2, if_neg hc3, if_pos rfl]
          rw [hesc]
          show parseBody quote ('\\' :: 'r' :: tl) = _
          rw [parseBody_escape_r quote tl hbq, hrec]
          rfl
        · by_cases hc5 : c = '\t'
          · subst hc5
            have hesc : escapeChar quote '\t' = ['\\', 't'] := by
              unfold escapeChar
              rw [if_neg hc1, if_neg hc2, if_neg hc3, if_neg hc4, if_pos rfl]
            rw [hesc]
            show parseBody quote ('\\' :: 't' :: tl) = _
            rw [parseBody_escape_t quote tl hbq, hrec]
            rfl
          · by_cases hc6 : c.toNat < 32 ∨ c.toNat = 127
            · have hesc : escapeChar quote c
                  = ['\\', 'x', hexDigitChar (c.toNat / 16), hexDigitChar (c.toNat % 16)] := by
                unfold escapeChar
                rw [if_neg hc1, if_neg hc2, if_neg hc3, if_neg hc4, if_neg hc5,
                  if_pos hc6]
              rw [hesc]
              show parseBody quote
                ('\\' :: 'x' :: hexDigitChar (c.toNat / 16)
                  :: hexDigitChar (c.toNat % 16) :: tl) = _
              rw [parseBody_escape_hex quote _ _ tl hbq,
                hexVal_hexDigitChar (c.toNat / 16) (by omega),
                hexVal_hexDigitChar (c.toNat % 16) (by omega)]
              dsimp only
              rw [hrec, Nat.div_add_mod, Char.ofNat_toNat]
              rfl
            · have hesc : escapeChar quote c = [c] := by
                unfold escapeChar
                rw [if_neg hc1, if_neg hc2, if_neg hc3, if_neg hc4, if_neg hc5,
                  if_neg hc6]
              rw [hesc]
              show parseBody quote (c :: tl) = _
              rw [parseBody_cons_other quote c tl hc2 hc1, hrec]
              rfl

theorem parseBody_escapeList_append (quote : Char) (cs rest : List Char)
    (hq : quote = squoteChar ∨ quote = dquoteChar)
    (hascii : ∀ c ∈ cs, c.toNat < 128) :
    parseBody quote (escapeList quote cs ++ quote :: rest) = some (cs, rest) := by
  induction cs with
  | nil =>
    show parseBody quote (quote :: rest) = some ([], rest)
    exact parseBody_cons_quote quote rest
  | cons c cs2 ih =>
    have hassoc : escapeList quote (c :: cs2) ++ quote :: rest
        = escapeChar quote c ++ (escapeList quote cs2 ++ quote :: rest) := by
      show (escapeChar quote c ++ escapeList quote cs2) ++ quote :: rest = _
      rw [List.append_assoc]
    rw [hassoc]
    exact parseBody_escape_prepend quote c cs2 (escapeList quote cs2 ++ quote :: rest)
      rest hq (hascii c (List.mem_cons_self c cs2))
      (ih (fun x hx => hascii x (List.mem_cons_of_mem c hx)))

theorem reprQuote_cases (s : String) :
    reprQuote s = squoteChar ∨ reprQuote s = dquoteChar := by
  unfold reprQuote
  by_cases h : s.data.contains squoteChar = true ∧ ¬ s.data.contains dquoteChar = true
  · rw [if_pos h]
    exact Or.inr rfl
  · rw [if_neg h]
    exact Or.inl rfl

theorem parseStringLit_pyRepr (s : String) (suffix : List Char)
    (hascii : ∀ c ∈ s.data, c.toNat < 128) :
    parseStringLit (pyReprChars s ++ suffix) = some (s, suffix) := by
  have hq := reprQuote_cases s
  have hlist : pyReprChars s ++ suffix
      = reprQuote s :: (escapeList (reprQuote s) s.data ++ (reprQuote s :: suffix)) := by
    unfold pyReprChars
    rw [List.cons_append, List.append_assoc]
    rfl
  rw [hlist]
  show (if reprQuote s = squoteChar ∨ reprQuote s = dquoteChar then
      (parseBody (reprQuote s)
        (escapeList (reprQuote s) s.data ++ (reprQuote s :: suffix))).map
        (fun pr => (String.mk pr.1, pr.2))
    else none) = some (s, suffix)
  rw [if_pos hq,
    parseBody_escapeList_append (reprQuote s) s.data suffix hq hascii]
  cases s with
  | mk l => rfl

theorem parse_tuple_key_round (a b : String)
    (ha : ∀ c ∈ a.data, c.toNat < 128) (hb : ∀ c ∈ b.data, c.toNat < 128) :
    parse_tuple_key (dist_key_str (a, b)) = some (a, b) := by
  have hdata : (dist_key_str (a, b)).data
      = '(' :: (pyReprChars a ++ (',' :: ' ' :: (pyReprChars b ++ [')']))) := by
    show '(' :: (pyReprChars a ++ (',' :: ' ' :: pyReprChars b) ++ [')']) = _
    rw [List.append_assoc]
    rfl
  unfold parse_tuple_key
  rw [hdata]
  dsimp only
  rw [if_pos rfl,
    parseStringLit_pyRepr a (',' :: ' ' :: (pyReprChars b ++ [')'])) ha]
  dsimp only
  rw [if_pos ⟨rfl, rfl⟩, parseStringLit_pyRepr b [')'] hb]
  dsimp only
  rw [if_pos rfl]

/-- C5: serializing a distances dictionary with dist_dict_to_json and parsing
it back with dist_dict_from_json returns exactly the original dictionary, for
every dictionary whose keys are ordered pairs of ASCII id strings (every id
the program mints is a string of ASCII digits, and on the ASCII range the
embedded repr and literal-eval match CPython exactly). -/
theorem C5_persist_load_round_trip (d : PyDict (String × String) ℚ)
    (hascii : ∀ e ∈ d,
      (∀ c ∈ e.1.1.data, c.toNat < 128) ∧ (∀ c ∈ e.1.2.data, c.toNat < 128)) :
    dist_dict_from_json (dist_dict_to_json d) = some d := by
  induction d with
  | nil => rfl
  | cons e tl ih =>
    obtain ⟨⟨a, b⟩, v⟩ := e
    have hhd := hascii ((a, b), v) (List.mem_cons_self _ _)
    have ih2 := ih (fun e2 he2 => hascii e2 (List.mem_cons_of_mem _ he2))
    show dist_dict_from_json
        ((dist_key_str (a, b), v) :: dist_dict_to_json tl) = some (((a, b), v) :: tl)
    unfold dist_dict_from_json
    rw [List.mapM_cons, parse_tuple_key_round a b hhd.1 hhd.2]
    unfold dist_dict_from_json at ih2
    rw [ih2]
    rfl

/-- C5 witness: the round trip evaluated on a concrete one-entry dictionary. -/
theorem C5_persist_load_round_trip_witness :
    (∀ e ∈ ([((("000001" : String), ("000002" : String)), (300 : ℚ))] :
        PyDict (String × String) ℚ),
      (∀ c ∈ e.1.1.data, c.toNat < 128) ∧ (∀ c ∈ e.1.2.data, c.toNat < 128)) ∧
    dist_dict_from_json (dist_dict_to_json
        [((("000001" : String), ("000002" : String)), (300 : ℚ))])
      = some [((("000001" : String), ("000002" : String)), (300 : ℚ))] := by
  refine ⟨by decide, ?_⟩
  exact C5_persist_load_round_trip
    [((("000001" : String), ("000002" : String)), (300 : ℚ))] (by decide)
